import Mathlib

/-!
# The Ralink / MediaTek I2C master driver (`drivers/i2c/busses/i2c-ralink.c`)

A shallow embedding of the driver: the register accessors, the three status
polls, `rt_i2c_handle_msg`, `rt_i2c_master_xfer`, `rt_i2c_default_speed`,
`rt_i2c_init` and `rt_i2c_func`.

The hardware is an explicit state: the values the coming `ioread32` calls
return, and the trace of register accesses made so far.  A run that is still
going when the responses are used up ends in `Res.hang`, which keeps the trace
made up to that point.
-/

namespace I2cRalink

/-! ## Constants of the driver -/

def REG_CONFIG_REG : Nat := 0x00
def REG_CLKDIV_REG : Nat := 0x04
def REG_DEVADDR_REG : Nat := 0x08
def REG_ADDR_REG : Nat := 0x0C
def REG_DATAOUT_REG : Nat := 0x10
def REG_DATAIN_REG : Nat := 0x14
def REG_STATUS_REG : Nat := 0x18
def REG_STARTXFR_REG : Nat := 0x1C
def REG_BYTECNT_REG : Nat := 0x20
def REG_SM0CFG2 : Nat := 0x28
def REG_SM0CTL0 : Nat := 0x40

def BIT (n : Nat) : Nat := 1 <<< n

def I2C_STARTERR : Nat := BIT 4
def I2C_ACKERR : Nat := BIT 3
def I2C_DATARDY : Nat := BIT 2
def I2C_SDOEMPTY : Nat := BIT 1
def I2C_BUSY : Nat := BIT 0

def READ_CMD : Nat := 0x01
def WRITE_CMD : Nat := 0x00
def READ_BLOCK : Nat := 64
def MAX_SIZE : Nat := 63

/-- Modelled from the spec: the 10-bit-address flag of a message. The driver
tests `msg->flags & I2C_M_TEN`; the mask comes from `linux/i2c.h`, which is not
among the sources, and has the value of that header. -/
def I2C_M_TEN : Nat := 0x0010

/-- Modelled from the spec: the direction flag of a message (set for Read). The
driver tests `msg->flags & I2C_M_RD`; the mask comes from `linux/i2c.h`, which
is not among the sources, and has the value of that header. -/
def I2C_M_RD : Nat := 0x0001

/-- Modelled from the spec: the error number behind the two validation errors.
The driver returns `-EINVAL`; the number comes from `linux/errno.h`, which is
not among the sources, and has the value of that header. -/
def EINVAL : Int := 22

/-! ## Data model -/

/-- The conversion of a C `int` to the `u32` argument of `rt_i2c_w32`. -/
def u32 (v : Int) : Nat := (v % 4294967296).toNat

/-- One register access: `w reg val` is `iowrite32(val, membase + reg)`,
`r reg val` is an `ioread32(membase + reg)` that returned `val`. -/
inductive Ev where
  | w (reg val : Nat)
  | r (reg val : Nat)
  deriving DecidableEq, Repr

/-- The hardware seen from the driver: `resp` holds the values the coming
`ioread32` calls return, in order; `trace` holds the accesses made so far,
oldest first. -/
structure Hw where
  resp : List Nat
  trace : List Ev
  deriving DecidableEq, Repr

/-- A `struct i2c_msg`: `addr`, `flags` and `len` are `__u16`, `buf` points to
bytes (`__u8`). -/
structure Msg where
  addr : Nat
  flags : Nat
  len : Nat
  buf : List Nat
  deriving DecidableEq, Repr

/-- The ranges of the C types of a message, and a buffer that holds `len`
bytes. -/
def Msg.wf (m : Msg) : Bool :=
  decide (m.addr < 65536) && decide (m.flags < 65536) && decide (m.len < 65536)
    && m.buf.all (fun b => decide (b < 256)) && decide (m.len ≤ m.buf.length)

/-- The outcome of a run: `ok a h` when it returned `a` leaving the hardware
in `h`; `hang h` when the responses ran out while it was still going. -/
inductive Res (α : Type) where
  | ok (a : α) (h : Hw)
  | hang (h : Hw)
  deriving DecidableEq, Repr

/-- The hardware state a run ended in. -/
def Res.hw {α : Type} : Res α → Hw
  | Res.ok _ h => h
  | Res.hang h => h

/-- Code that accesses the hardware. -/
def HwM (α : Type) : Type := Hw → Res α

def HwM.pure {α : Type} (a : α) : HwM α := fun h => Res.ok a h

def HwM.bind {α β : Type} (m : HwM α) (f : α → HwM β) : HwM β := fun h =>
  match m h with
  | Res.ok a h1 => f a h1
  | Res.hang h1 => Res.hang h1

instance : Monad HwM where
  pure := HwM.pure
  bind := HwM.bind

/-! ## Register interface -/

/-- `rt_i2c_w32`: one 32-bit register write. -/
def rt_i2c_w32 (val : Int) (reg : Nat) : HwM Unit := fun h =>
  Res.ok () { h with trace := h.trace ++ [Ev.w reg (u32 val)] }

/-- `rt_i2c_r32`: one 32-bit register read; the value is the next response. -/
def rt_i2c_r32 (reg : Nat) : HwM Nat := fun h =>
  match h.resp with
  | [] => Res.hang h
  | v :: rs => Res.ok v { resp := rs, trace := h.trace ++ [Ev.r reg v] }

/-! ## Controller state poller -/

/-- The loop `while (again(rt_i2c_r32(REG_STATUS_REG)));` run on the responses
`resp` with the trace `t`: every turn is one read of the status register. -/
def spin (again : Nat → Bool) : List Nat → List Ev → Res Unit
  | [], t => Res.hang { resp := [], trace := t }
  | v :: rs, t =>
    if again v then spin again rs (t ++ [Ev.r REG_STATUS_REG v])
    else Res.ok () { resp := rs, trace := t ++ [Ev.r REG_STATUS_REG v] }

/-- The loop condition of `rt_i2c_wait_rx_done`: `!(status & I2C_DATARDY)`. -/
def rxPending (v : Nat) : Bool := !(v &&& I2C_DATARDY != 0)

/-- The loop condition of `rt_i2c_wait_idle`: `status & I2C_BUSY`. -/
def busy (v : Nat) : Bool := v &&& I2C_BUSY != 0

/-- The loop condition of `rt_i2c_wait_tx_done`: `!(status & I2C_SDOEMPTY)`. -/
def txPending (v : Nat) : Bool := !(v &&& I2C_SDOEMPTY != 0)

/-- `rt_i2c_wait_rx_done`: `while (!(rt_i2c_r32(REG_STATUS_REG) & I2C_DATARDY)); return 0;` -/
def rt_i2c_wait_rx_done : HwM Int := fun h =>
  match spin rxPending h.resp h.trace with
  | Res.ok _ h1 => Res.ok 0 h1
  | Res.hang h1 => Res.hang h1

/-- `rt_i2c_wait_idle`: `while (rt_i2c_r32(REG_STATUS_REG) & I2C_BUSY); return 0;` -/
def rt_i2c_wait_idle : HwM Int := fun h =>
  match spin busy h.resp h.trace with
  | Res.ok _ h1 => Res.ok 0 h1
  | Res.hang h1 => Res.hang h1

/-- `rt_i2c_wait_tx_done`: `while (!(rt_i2c_r32(REG_STATUS_REG) & I2C_SDOEMPTY)); return 0;` -/
def rt_i2c_wait_tx_done : HwM Int := fun h =>
  match spin txPending h.resp h.trace with
  | Res.ok _ h1 => Res.ok 0 h1
  | Res.hang h1 => Res.hang h1

/-! ## Block transfer engine -/

/-- The byte loop of the read path, `n` turns left:
`rt_i2c_wait_rx_done(); msg->buf[pos++] = rt_i2c_r32(REG_DATAIN_REG);`.
The store into the `__u8` buffer keeps the low 8 bits. -/
def readBytes : Nat → Nat → List Nat → HwM (Nat × List Nat)
  | 0, pos, buf => pure (pos, buf)
  | n + 1, pos, buf => do
    let _ ← rt_i2c_wait_rx_done
    let v ← rt_i2c_r32 REG_DATAIN_REG
    readBytes n (pos + 1) (buf.set pos (v % 256))

/-- The full-block loop of the read path, `n` turns left:
`for (i = 0; i < nblock; i++) { ... for (j = 0; j < READ_BLOCK; j++) { ... } }`. -/
def readBlocks : Nat → Nat → List Nat → HwM (Nat × List Nat)
  | 0, pos, buf => pure (pos, buf)
  | n + 1, pos, buf => do
    let _ ← rt_i2c_wait_idle
    rt_i2c_w32 ((READ_BLOCK : Int) - 1) REG_BYTECNT_REG
    rt_i2c_w32 READ_CMD REG_STARTXFR_REG
    let (pos1, buf1) ← readBytes READ_BLOCK pos buf
    readBlocks n pos1 buf1

/-- The byte loop of the write path, `n` turns left, at index `i`:
`rt_i2c_w32(msg->buf[i], REG_DATAOUT_REG); if (i == 0)
rt_i2c_w32(WRITE_CMD, REG_STARTXFR_REG); rt_i2c_wait_tx_done();`. -/
def writeBytes : Nat → Nat → List Nat → HwM Unit
  | 0, _, _ => pure ()
  | n + 1, i, buf => do
    rt_i2c_w32 (buf.getD i 0) REG_DATAOUT_REG
    if i = 0 then
      rt_i2c_w32 WRITE_CMD REG_STARTXFR_REG
    let _ ← rt_i2c_wait_tx_done
    writeBytes n (i + 1) buf

/-- `rt_i2c_handle_msg`: returns the C return value and the message with its
buffer as the call left it. -/
def rt_i2c_handle_msg (msg : Msg) : HwM (Int × Msg) :=
  let nblock := msg.len / READ_BLOCK
  let rem := msg.len % READ_BLOCK
  if msg.flags &&& I2C_M_TEN ≠ 0 then
    pure (-EINVAL, msg)
  else if msg.len > MAX_SIZE then
    pure (-EINVAL, msg)
  else if msg.flags &&& I2C_M_RD ≠ 0 then do
    let (pos, buf) ← readBlocks nblock 0 msg.buf
    let _ ← rt_i2c_wait_idle
    if rem ≠ 0 then
      rt_i2c_w32 ((rem : Int) - 1) REG_BYTECNT_REG
      rt_i2c_w32 READ_CMD REG_STARTXFR_REG
    let (_, buf1) ← readBytes rem pos buf
    pure (0, { msg with buf := buf1 })
  else do
    let _ ← rt_i2c_wait_idle
    rt_i2c_w32 ((msg.len : Int) - 1) REG_BYTECNT_REG
    writeBytes msg.len 0 msg.buf
    pure (0, msg)

/-! ## Transaction sequencer -/

/-- The message loop of `rt_i2c_master_xfer` over the messages `m[i..n-1]`:
`for (; ret == 0 && i != n; i++) { ret = rt_i2c_handle_msg(a, &m[i]);
if (ret < 0) return ret; } return i;`.  The second component is `m[i..n-1]`
as the loop left it. -/
def xferLoop : List Msg → Int → Nat → HwM (Int × List Msg)
  | [], _, i => pure ((i : Int), [])
  | msg :: rest, ret, i =>
    if ret ≠ 0 then pure ((i : Int), msg :: rest)
    else do
      let (r, msg1) ← rt_i2c_handle_msg msg
      if r < 0 then pure (r, msg1 :: rest)
      else do
        let (x, rest1) ← xferLoop rest r (i + 1)
        pure (x, msg1 :: rest1)

/-- The value of `m->addr`: the address of the first message of the array
(taken as 0 for an empty array, where C reads whatever `m` points to). -/
def headAddr : List Msg → Nat
  | [] => 0
  | m0 :: _ => m0.addr

/-- `rt_i2c_master_xfer` on the array `m` with `n = m.length`. -/
def rt_i2c_master_xfer (m : List Msg) : HwM (Int × List Msg) := do
  rt_i2c_w32 (headAddr m) REG_DEVADDR_REG
  rt_i2c_w32 0 REG_ADDR_REG
  xferLoop m 0 0

/-! ## Speed/mode configurator and init facade -/

/-- The `hw_type` of the baseline variant (first value of the anonymous enum). -/
def I2C_TYPE_RALINK : Int := 0

/-- The `hw_type` of the extended variant (second value of the anonymous enum). -/
def I2C_TYPE_MEDIATEK : Int := 1

def I2C_DEVADLEN_7 : Nat := 6 <<< 2
def I2C_ADDRDIS : Nat := BIT 1
def CLKDIV_VALUE : Nat := 200

def SM0CTL0_OD : Nat := BIT 31
def SM0CTL0_VTRIG : Nat := BIT 28
def SM0CTL0_OUTHI : Nat := BIT 6
def SM0CTL0_STRETCH : Nat := BIT 1
def SM0CTL0_DEFAULT : Nat := SM0CTL0_OD ||| SM0CTL0_VTRIG ||| SM0CTL0_OUTHI ||| SM0CTL0_STRETCH

/-- `rt_i2c_default_speed`, with the global `hw_type` as a parameter. -/
def rt_i2c_default_speed (hw_type : Int) : HwM Unit :=
  if hw_type = I2C_TYPE_RALINK then
    rt_i2c_w32 CLKDIV_VALUE REG_CLKDIV_REG
  else do
    rt_i2c_w32 (((CLKDIV_VALUE <<< 16) ||| SM0CTL0_DEFAULT : Nat) : Int) REG_SM0CTL0
    rt_i2c_w32 1 REG_SM0CFG2

/-- Modelled from the spec: the `struct i2c_adapter` of `linux/i2c.h`, which is
not among the sources, cut down to the fields the driver sets that matter
here: the bus number, the timeout and the parent device (`dev.parent`). -/
structure I2cAdapter where
  nr : Int
  timeout : Int
  parent : Nat
  deriving DecidableEq, Repr

/-- What `rt_i2c_init` does to the platform, one event per step: the reset of
a device, a busy delay of so many microseconds, or a register access. -/
inductive PEv where
  | reset (dev : Nat)
  | udelay (usecs : Nat)
  | io (e : Ev)
  deriving DecidableEq, Repr

/-- The platform seen from `rt_i2c_init`: the values the coming `ioread32`
calls return and the log of platform events so far, oldest first. -/
structure Plat where
  resp : List Nat
  log : List PEv
  deriving DecidableEq, Repr

/-- Modelled from the spec: `device_reset` of `linux/reset.h`, which is not
among the sources: it triggers the external reset signal of the device. -/
def device_reset (dev : Nat) (s : Plat) : Plat :=
  { s with log := s.log ++ [PEv.reset dev] }

/-- Modelled from the spec: `udelay` of `linux/delay.h`, which is not among the
sources: it waits the given number of microseconds. -/
def udelay (usecs : Nat) (s : Plat) : Plat :=
  { s with log := s.log ++ [PEv.udelay usecs] }

/-- Register code run on the platform: its accesses are appended to the log. -/
def Plat.regs (m : HwM Unit) (s : Plat) : Plat :=
  let h := (m { resp := s.resp, trace := [] }).hw
  { resp := h.resp, log := s.log ++ h.trace.map PEv.io }

/-- `rt_i2c_init`, with the global `hw_type` as a parameter. -/
def rt_i2c_init (a : I2cAdapter) (hw_type : Int) (s : Plat) : Plat :=
  let s1 := device_reset a.parent s
  let s2 := udelay 500 s1
  let s3 := Plat.regs (rt_i2c_w32 ((I2C_DEVADLEN_7 ||| I2C_ADDRDIS : Nat) : Int) REG_CONFIG_REG) s2
  Plat.regs (rt_i2c_default_speed hw_type) s3

/-- Modelled from the spec: the plain-I2C capability flag. The driver returns
`I2C_FUNC_I2C | I2C_FUNC_SMBUS_EMUL`; the flag comes from `linux/i2c.h`, which
is not among the sources, and has the value of that header. -/
def I2C_FUNC_I2C : Nat := 0x00000001

/-- Modelled from the spec: the SMBus-emulation capability flags. The flag set
comes from `linux/i2c.h`, which is not among the sources, and has the value of
that header. -/
def I2C_FUNC_SMBUS_EMUL : Nat := 0x0EFF0008

/-- `rt_i2c_func`: `return I2C_FUNC_I2C | I2C_FUNC_SMBUS_EMUL;`. -/
def rt_i2c_func (_a : I2cAdapter) : HwM Nat :=
  pure (I2C_FUNC_I2C ||| I2C_FUNC_SMBUS_EMUL)

/-! ## Vocabulary of the statements -/

/-- The responses of one terminating poll: every value but the last keeps the
loop going, the last one ends it. -/
def isPoll (again : Nat → Bool) : List Nat → Bool
  | [] => false
  | [v] => !again v
  | v :: w :: rs => again v && isPoll again (w :: rs)

/-- The status reads a poll makes on the responses `p`. -/
def statusReads (p : List Nat) : List Ev := p.map (Ev.r REG_STATUS_REG)

/-- A write to the register `reg`. -/
def isWriteTo (reg : Nat) : Ev → Bool
  | Ev.w r _ => r == reg
  | Ev.r _ _ => false

/-- A register write. -/
def isWrite : Ev → Bool
  | Ev.w _ _ => true
  | Ev.r _ _ => false

/-- The register writes of a trace, in order. -/
def writesOf (t : List Ev) : List Ev := t.filter isWrite

/-- A message `rt_i2c_handle_msg` accepts: no 10-bit flag, at most 63 bytes. -/
def Msg.valid (m : Msg) : Bool := (m.flags &&& I2C_M_TEN == 0) && decide (m.len ≤ MAX_SIZE)

/-- A Read message. -/
def Msg.isRead (m : Msg) : Bool := m.flags &&& I2C_M_RD != 0

/-- The write path as the specification words it, on the bytes `bytes` and the
tx-ready polls `polls`: the first byte is staged, the start command is issued,
tx-ready is awaited; every later byte is staged and tx-ready awaited. -/
def writePathSpec : List Nat → List (List Nat) → List Ev
  | b0 :: bs, p0 :: ps =>
    [Ev.w REG_DATAOUT_REG b0, Ev.w REG_STARTXFR_REG WRITE_CMD] ++ statusReads p0
      ++ (List.zipWith (fun b p => Ev.w REG_DATAOUT_REG b :: statusReads p) bs ps).flatten
  | _, _ => []

/-- The byte phase of a read block as the specification words it: for each byte
an rx-ready poll, then one read of the data-in register. -/
def readPathSpec (rds : List (List Nat × Nat)) : List Ev :=
  (rds.map (fun x => statusReads x.1 ++ [Ev.r REG_DATAIN_REG x.2])).flatten

/-- The responses the byte phase of a read block consumes: for each byte the
status values of its poll, then the data-in value. -/
def readResp (rds : List (List Nat × Nat)) : List Nat :=
  (rds.map (fun x => x.1 ++ [x.2])).flatten

/-- The accesses the byte loop of the write path makes from index `i` on, one
tx-ready poll per byte. -/
def writeSegs : Nat → List Nat → List (List Nat) → List Ev
  | _, _, [] => []
  | i, buf, p :: ps =>
    (Ev.w REG_DATAOUT_REG (u32 (buf.getD i 0))
      :: (if i = 0 then [Ev.w REG_STARTXFR_REG (u32 WRITE_CMD)] else []))
      ++ statusReads p ++ writeSegs (i + 1) buf ps

/-- The buffer after the bytes `ds` were stored from position `pos` on. -/
def storeAt : Nat → List Nat → List Nat → List Nat
  | _, [], buf => buf
  | pos, d :: ds, buf => storeAt (pos + 1) ds (buf.set pos d)

/-- The responses `s` serve the valid message `m`: a terminating bus-idle poll,
then for a Write message one terminating tx-ready poll per byte, for a Read
message one terminating rx-ready poll and one data-in value per byte. -/
def Serves (m : Msg) (s : List Nat) : Prop :=
  if m.isRead then
    ∃ (idle : List Nat) (rds : List (List Nat × Nat)), isPoll busy idle = true ∧ rds.length = m.len ∧
      (∀ x ∈ rds, isPoll rxPending x.1 = true) ∧ s = idle ++ readResp rds
  else
    ∃ (idle : List Nat) (txs : List (List Nat)), isPoll busy idle = true ∧ txs.length = m.len ∧
      (∀ p ∈ txs, isPoll txPending p = true) ∧ s = idle ++ txs.flatten

/-- The trace `rt_i2c_handle_msg` makes for `m` on the responses `s`. -/
def handleTrace (m : Msg) (s : List Nat) : List Ev :=
  (rt_i2c_handle_msg m { resp := s, trace := [] }).hw.trace

/-- The message as `rt_i2c_handle_msg` leaves it on the responses `s`. -/
def handleOut (m : Msg) (s : List Nat) : Msg :=
  match rt_i2c_handle_msg m { resp := s, trace := [] } with
  | Res.ok (_, m1) _ => m1
  | Res.hang _ => m

/-- The messages `ms` handed to `rt_i2c_handle_msg` one after the other, in
order; the result is the messages as the calls left them. -/
def runAll : List Msg → HwM (List Msg)
  | [] => pure []
  | m :: ms => do
    let (_, m1) ← rt_i2c_handle_msg m
    let ms1 ← runAll ms
    pure (m1 :: ms1)

/-- The two register writes that open `rt_i2c_master_xfer`:
`rt_i2c_w32(m->addr, REG_DEVADDR_REG); rt_i2c_w32(0, REG_ADDR_REG);`. -/
def addrWrites (m : List Msg) : List Ev :=
  [Ev.w REG_DEVADDR_REG (u32 (headAddr m)), Ev.w REG_ADDR_REG 0]

/-- The value a run returned, if it returned. -/
def Res.ret? {α : Type} : Res (Int × α) → Option Int
  | Res.ok a _ => some a.1
  | Res.hang _ => none

/-- An access that is not a write to the device-address or the sub-address
register. -/
def notAddrWrite (e : Ev) : Prop :=
  isWriteTo REG_DEVADDR_REG e = false ∧ isWriteTo REG_ADDR_REG e = false

/-- Whatever the hardware answers, the run of `m` only appends accesses that
satisfy `P` to the trace (also when it hangs). -/
def Emits {α : Type} (P : Ev → Prop) (m : HwM α) : Prop :=
  ∀ h : Hw, ∃ tail, (m h).hw.trace = h.trace ++ tail ∧ ∀ e ∈ tail, P e

/-- The value a run returned, if it returned. -/
def Res.val? {α : Type} : Res α → Option α
  | Res.ok a _ => some a
  | Res.hang _ => none

/-- An access that is neither a start command nor a byte-count write. -/
def noCmd (e : Ev) : Prop :=
  isWriteTo REG_STARTXFR_REG e = false ∧ isWriteTo REG_BYTECNT_REG e = false

/-- Whatever the hardware answers, the run of `m` appends at most `c` writes
to the start-transfer register, and every write to the byte-count register it
appends has the value `x` (also when it hangs). -/
def Budget {α : Type} (c x : Nat) (m : HwM α) : Prop :=
  ∀ h : Hw, ∃ tail, (m h).hw.trace = h.trace ++ tail
    ∧ tail.countP (isWriteTo REG_STARTXFR_REG) ≤ c
    ∧ ∀ v, Ev.w REG_BYTECNT_REG v ∈ tail → v = x

/-- The register writes of the byte loop of the write path, `n` turns left, at
index `i`. -/
def writeWrites : Nat → Nat → List Nat → List Ev
  | 0, _, _ => []
  | n + 1, i, buf =>
    (Ev.w REG_DATAOUT_REG (u32 (buf.getD i 0))
      :: (if i = 0 then [Ev.w REG_STARTXFR_REG (u32 WRITE_CMD)] else []))
      ++ writeWrites n (i + 1) buf

/-- The register writes a message calls for, as a function of the message
alone: none for a rejected message; byte-count and read-start for a Read
message of nonzero length; byte-count, then the bytes with the write-start
after the first, for a Write message. -/
def expectedWrites (msg : Msg) : List Ev :=
  if msg.flags &&& I2C_M_TEN ≠ 0 then []
  else if msg.len > MAX_SIZE then []
  else if msg.flags &&& I2C_M_RD ≠ 0 then
    (if msg.len % READ_BLOCK ≠ 0 then
      [Ev.w REG_BYTECNT_REG (u32 ((msg.len % READ_BLOCK : Nat) - 1)),
       Ev.w REG_STARTXFR_REG (u32 READ_CMD)]
    else [])
  else Ev.w REG_BYTECNT_REG (u32 ((msg.len : Int) - 1)) :: writeWrites msg.len 0 msg.buf

/-- Whenever the run of `m` returns, the register writes it appended to the
trace are exactly `ws`, whatever the hardware answered. -/
def Writes {α : Type} (ws : List Ev) (m : HwM α) : Prop :=
  ∀ (h : Hw) (a : α) (g : Hw), m h = Res.ok a g →
    ∃ tail, g.trace = h.trace ++ tail ∧ writesOf tail = ws

/-! ## Concrete messages and hardware used in the examples -/

/-- The Write message of length 0 used against claim C1. -/
def emptyWrite : Msg := { addr := 0x50, flags := 0, len := 0, buf := [] }

/-- A Write message of three bytes. -/
def write3 : Msg := { addr := 0x50, flags := 0, len := 3, buf := [0xA1, 0xB2, 0xC3] }

/-- The Read message of 130 bytes of scenario B. -/
def read130 : Msg := { addr := 0x50, flags := I2C_M_RD, len := 130, buf := List.replicate 130 0 }

/-- Hardware that answers every read with data-ready set and busy clear, for
300 reads. -/
def readyHw : Hw := { resp := List.replicate 300 4, trace := [] }

/-- A Read message of two bytes with a buffer of three. -/
def read2 : Msg := { addr := 0x50, flags := I2C_M_RD, len := 2, buf := [0, 0, 9] }

/-- The Write message of 10 bytes of scenario A. -/
def write10 : Msg :=
  { addr := 0x50, flags := 0, len := 10, buf := [10, 11, 12, 13, 14, 15, 16, 17, 18, 19] }

/-- A Write message of 64 bytes. -/
def write64 : Msg := { addr := 0x50, flags := 0, len := 64, buf := List.replicate 64 0xAB }

/-- A Write message of 63 bytes. -/
def write63 : Msg := { addr := 0x50, flags := 0, len := 63, buf := List.replicate 63 0xAB }

/-- A Read message of 4 bytes that asks for 10-bit addressing. -/
def tenBitRead : Msg := { addr := 0x150, flags := I2C_M_TEN ||| I2C_M_RD, len := 4, buf := [1, 2, 3, 4] }

/-- Responses that serve `write3`: every poll ends at its first read. -/
def write3Resp : List Nat := [0, 2, 2, 2]

/-- Responses that serve `read2`: the data-in values are 0x1FF and 7. -/
def read2Resp : List Nat := [1, 0] ++ readResp [([0, 4], 0x1FF), ([4], 7)]

/-- A Write message of one byte to another address. -/
def write1Other : Msg := { addr := 0x51, flags := 0, len := 1, buf := [0x7E] }

/-- A Read message of length 0. -/
def emptyRead : Msg := { addr := 0x50, flags := I2C_M_RD, len := 0, buf := [5, 6] }

/-- Hardware on which every poll of `write3` ends at its first read. -/
def quietHw : Hw := { resp := [0, 2, 2, 2], trace := [] }

/-- The state `rt_i2c_handle_msg write3` leaves `quietHw` in. -/
def quietDone : Hw :=
  { resp := [],
    trace := [Ev.r REG_STATUS_REG 0, Ev.w REG_BYTECNT_REG 2, Ev.w REG_DATAOUT_REG 0xA1,
      Ev.w REG_STARTXFR_REG 0, Ev.r REG_STATUS_REG 2, Ev.w REG_DATAOUT_REG 0xB2,
      Ev.r REG_STATUS_REG 2, Ev.w REG_DATAOUT_REG 0xC3, Ev.r REG_STATUS_REG 2] }

/-- Hardware whose status values carry the ACK-error bit (3) and the
start-error bit (4), and that makes two of the polls of `write3` wait. -/
def noisyHw : Hw := { resp := [0x19, 0x18, 0x08, 0x1A, 0x12, 0x1E, 99], trace := [] }

/-- The state `rt_i2c_handle_msg write3` leaves `noisyHw` in. -/
def noisyDone : Hw :=
  { resp := [99],
    trace := [Ev.r REG_STATUS_REG 0x19, Ev.r REG_STATUS_REG 0x18, Ev.w REG_BYTECNT_REG 2,
      Ev.w REG_DATAOUT_REG 0xA1, Ev.w REG_STARTXFR_REG 0, Ev.r REG_STATUS_REG 0x08,
      Ev.r REG_STATUS_REG 0x1A, Ev.w REG_DATAOUT_REG 0xB2, Ev.r REG_STATUS_REG 0x12,
      Ev.w REG_DATAOUT_REG 0xC3, Ev.r REG_STATUS_REG 0x1E] }

/-! ## Basic facts -/

theorem bind_apply {α β : Type} (m : HwM α) (f : α → HwM β) (h : Hw) :
    (m >>= f) h = match m h with
      | Res.ok a h1 => f a h1
      | Res.hang h1 => Res.hang h1 := rfl

theorem pure_apply {α : Type} (a : α) (h : Hw) : (pure a : HwM α) h = Res.ok a h := rfl

theorem w32_apply (val : Int) (reg : Nat) (h : Hw) :
    rt_i2c_w32 val reg h = Res.ok () { resp := h.resp, trace := h.trace ++ [Ev.w reg (u32 val)] } := rfl

theorem u32_natCast (n : Nat) (hn : n < 4294967296) : u32 (n : Int) = n := by
  unfold u32
  have : ((n : Int) % 4294967296) = (n : Int) := Int.emod_eq_of_lt (by omega) (by omega)
  rw [this]; simp

theorem u32_pred (n : Nat) (h1 : 1 ≤ n) (hn : n ≤ 4294967296) : u32 ((n : Int) - 1) = n - 1 := by
  unfold u32
  have : (((n : Int) - 1) % 4294967296) = ((n - 1 : Nat) : Int) := by
    rw [Int.emod_eq_of_lt (by omega) (by omega)]; omega
  rw [this]; simp

theorem spin_poll (again : Nat → Bool) (p : List Nat) (hp : isPoll again p = true)
    (rest : List Nat) (t : List Ev) :
    spin again (p ++ rest) t = Res.ok () { resp := rest, trace := t ++ statusReads p } := by
  induction p generalizing t with
  | nil => simp [isPoll] at hp
  | cons v p ih =>
    cases p with
    | nil =>
      simp [isPoll] at hp
      simp [spin, hp, statusReads]
    | cons w rs =>
      simp only [isPoll, Bool.and_eq_true] at hp
      have := ih hp.2 (t ++ [Ev.r REG_STATUS_REG v])
      simp only [List.cons_append, spin, hp.1, if_true] at this ⊢
      rw [this]; simp [statusReads]

theorem wait_idle_poll (p : List Nat) (hp : isPoll busy p = true) (rest : List Nat) (t : List Ev) :
    rt_i2c_wait_idle { resp := p ++ rest, trace := t }
      = Res.ok 0 { resp := rest, trace := t ++ statusReads p } := by
  simp [rt_i2c_wait_idle, spin_poll busy p hp]

theorem wait_tx_poll (p : List Nat) (hp : isPoll txPending p = true) (rest : List Nat) (t : List Ev) :
    rt_i2c_wait_tx_done { resp := p ++ rest, trace := t }
      = Res.ok 0 { resp := rest, trace := t ++ statusReads p } := by
  simp [rt_i2c_wait_tx_done, spin_poll txPending p hp]

theorem wait_rx_poll (p : List Nat) (hp : isPoll rxPending p = true) (rest : List Nat) (t : List Ev) :
    rt_i2c_wait_rx_done { resp := p ++ rest, trace := t }
      = Res.ok 0 { resp := rest, trace := t ++ statusReads p } := by
  simp [rt_i2c_wait_rx_done, spin_poll rxPending p hp]

/-! ## The byte loops on terminating polls -/

theorem writeBytes_ok (buf : List Nat) (txs : List (List Nat))
    (htx : ∀ p ∈ txs, isPoll txPending p = true) (i : Nat) (rest : List Nat) (t : List Ev) :
    writeBytes txs.length i buf { resp := txs.flatten ++ rest, trace := t }
      = Res.ok () { resp := rest, trace := t ++ writeSegs i buf txs } := by
  induction txs generalizing i t with
  | nil => simp [writeBytes, writeSegs, pure_apply]
  | cons p ps ih =>
    have hp : isPoll txPending p = true := htx p (List.mem_cons_self _ _)
    have hps : ∀ q ∈ ps, isPoll txPending q = true := fun q hq => htx q (List.mem_cons_of_mem _ hq)
    simp only [List.length_cons, writeBytes, bind_apply, w32_apply, List.flatten_cons,
      List.append_assoc]
    by_cases hi : i = 0
    · simp only [hi, if_true, bind_apply, w32_apply, wait_tx_poll p hp, ih hps, writeSegs]
      simp
    · simp only [hi, if_false, bind_apply, pure_apply, wait_tx_poll p hp, ih hps, writeSegs]
      simp

theorem readBytes_ok (rds : List (List Nat × Nat))
    (hrx : ∀ x ∈ rds, isPoll rxPending x.1 = true) (pos : Nat) (buf : List Nat)
    (rest : List Nat) (t : List Ev) :
    readBytes rds.length pos buf { resp := readResp rds ++ rest, trace := t }
      = Res.ok (pos + rds.length, storeAt pos (rds.map (fun x => x.2 % 256)) buf)
          { resp := rest, trace := t ++ readPathSpec rds } := by
  induction rds generalizing pos buf t with
  | nil => simp [readBytes, readResp, readPathSpec, storeAt, pure_apply]
  | cons x xs ih =>
    have hx : isPoll rxPending x.1 = true := hrx x (List.mem_cons_self _ _)
    have hxs : ∀ y ∈ xs, isPoll rxPending y.1 = true := fun y hy => hrx y (List.mem_cons_of_mem _ hy)
    have ih1 := ih hxs (pos + 1) (buf.set pos (x.2 % 256))
      (t ++ statusReads x.1 ++ [Ev.r REG_DATAIN_REG x.2])
    simp only [readResp] at ih1
    simp only [List.length_cons, readBytes, bind_apply, readResp, List.map_cons,
      List.flatten_cons, List.append_assoc, wait_rx_poll x.1 hx, rt_i2c_r32,
      List.singleton_append, List.cons_append, List.nil_append]
    simp only [List.append_assoc] at ih1
    rw [ih1]
    simp [storeAt, readPathSpec, Nat.add_assoc, Nat.add_comm 1]

theorem storeAt_eq (ds : List Nat) (pos : Nat) (buf : List Nat)
    (hlen : pos + ds.length ≤ buf.length) :
    storeAt pos ds buf = buf.take pos ++ ds ++ buf.drop (pos + ds.length) := by
  induction ds generalizing pos buf with
  | nil => simp [storeAt]
  | cons d ds ih =>
    simp only [List.length_cons] at hlen
    have hpos : pos < buf.length := by omega
    rw [storeAt, ih (pos + 1) (buf.set pos d) (by simp; omega)]
    have h1 : (buf.set pos d).take (pos + 1) = buf.take pos ++ [d] := by
      rw [List.set_eq_take_append_cons_drop, if_pos hpos, List.take_append_eq_append_take]
      simp [List.length_take, Nat.min_eq_left (Nat.le_of_lt hpos)]
    have h2 : (buf.set pos d).drop (pos + 1 + ds.length) = buf.drop (pos + (ds.length + 1)) := by
      rw [List.drop_set_of_lt d buf (by omega)]
      congr 1; omega
    rw [h1, h2]; simp

/-! ## `rt_i2c_handle_msg` on terminating polls -/

theorem handle_write_ok (msg : Msg) (hten : msg.flags &&& I2C_M_TEN = 0)
    (hrd : msg.flags &&& I2C_M_RD = 0) (hlen : msg.len ≤ 63)
    (idle : List Nat) (hidle : isPoll busy idle = true)
    (txs : List (List Nat)) (hn : txs.length = msg.len)
    (htx : ∀ p ∈ txs, isPoll txPending p = true) (rest : List Nat) (t : List Ev) :
    rt_i2c_handle_msg msg { resp := idle ++ txs.flatten ++ rest, trace := t }
      = Res.ok (0, msg) { resp := rest, trace := t ++ statusReads idle
          ++ [Ev.w REG_BYTECNT_REG (u32 ((msg.len : Int) - 1))] ++ writeSegs 0 msg.buf txs } := by
  have hmax : ¬ msg.len > MAX_SIZE := by simp [MAX_SIZE]; omega
  have hw := writeBytes_ok msg.buf txs htx 0 rest
    (t ++ statusReads idle ++ [Ev.w REG_BYTECNT_REG (u32 ((msg.len : Int) - 1))])
  rw [hn] at hw
  simp only [rt_i2c_handle_msg, hten, hrd, hmax, ne_eq, not_true_eq_false, if_false,
    bind_apply, List.append_assoc, wait_idle_poll idle hidle, w32_apply, pure_apply]
  simp only [List.append_assoc] at hw
  rw [hw]

theorem handle_read_ok (msg : Msg) (hten : msg.flags &&& I2C_M_TEN = 0)
    (hrd : msg.flags &&& I2C_M_RD ≠ 0) (hlen : msg.len ≤ 63)
    (idle : List Nat) (hidle : isPoll busy idle = true)
    (rds : List (List Nat × Nat)) (hn : rds.length = msg.len)
    (hrx : ∀ x ∈ rds, isPoll rxPending x.1 = true) (rest : List Nat) (t : List Ev) :
    rt_i2c_handle_msg msg { resp := idle ++ readResp rds ++ rest, trace := t }
      = Res.ok (0, { msg with buf := storeAt 0 (rds.map (fun x => x.2 % 256)) msg.buf })
          { resp := rest, trace := t ++ statusReads idle
            ++ (if msg.len % 64 ≠ 0 then
                  [Ev.w REG_BYTECNT_REG (msg.len % 64 - 1), Ev.w REG_STARTXFR_REG READ_CMD]
                else [])
            ++ readPathSpec rds } := by
  have hmax : ¬ msg.len > MAX_SIZE := by simp [MAX_SIZE]; omega
  have hnb : msg.len / READ_BLOCK = 0 := by simp [READ_BLOCK]; omega
  have hrem : msg.len % READ_BLOCK = msg.len := by simp [READ_BLOCK]; omega
  have h64 : msg.len % 64 = msg.len := by omega
  have hcmd : u32 (READ_CMD : Int) = READ_CMD := by decide
  simp only [rt_i2c_handle_msg, hten, hrd, hmax, ne_eq, not_true_eq_false, not_false_eq_true,
    if_false, if_true, hnb, hrem, h64, readBlocks, bind_apply, pure_apply, List.append_assoc,
    wait_idle_poll idle hidle]
  by_cases h0 : msg.len = 0
  · have hr := readBytes_ok rds hrx 0 msg.buf rest (t ++ statusReads idle)
    rw [hn] at hr
    simp only [h0, not_true_eq_false, if_false, bind_apply, pure_apply, List.nil_append]
    simp only [h0, List.append_assoc] at hr
    rw [hr]
  · have hr := readBytes_ok rds hrx 0 msg.buf rest (t ++ statusReads idle
      ++ [Ev.w REG_BYTECNT_REG (msg.len - 1), Ev.w REG_STARTXFR_REG READ_CMD])
    rw [hn] at hr
    have hb : u32 ((msg.len : Int) - 1) = msg.len - 1 := u32_pred msg.len (by omega) (by omega)
    simp only [h0, not_false_eq_true, if_true, bind_apply, pure_apply, w32_apply, hb, hcmd,
      List.append_assoc, List.singleton_append, List.cons_append, List.nil_append]
    simp only [List.append_assoc, List.singleton_append, List.cons_append, List.nil_append] at hr
    rw [hr]

theorem writeSegs_later (buf : List Nat) (hbytes : ∀ b ∈ buf, b < 256) (ps : List (List Nat))
    (i : Nat) (hi : 1 ≤ i) (hlen : i + ps.length ≤ buf.length) :
    writeSegs i buf ps
      = (List.zipWith (fun b p => Ev.w REG_DATAOUT_REG b :: statusReads p)
          ((buf.drop i).take ps.length) ps).flatten := by
  induction ps generalizing i with
  | nil => simp [writeSegs]
  | cons p ps ih =>
    simp only [List.length_cons] at hlen
    have hlt : i < buf.length := by omega
    have hb : buf[i] < 256 := hbytes _ (List.getElem_mem hlt)
    have hne : i ≠ 0 := by omega
    rw [writeSegs, ih (i + 1) (by omega) (by omega), List.drop_eq_getElem_cons hlt]
    simp only [List.take_succ_cons, List.zipWith_cons_cons, List.flatten_cons, hne, if_false,
      List.getD_eq_getElem?_getD, List.getElem?_eq_getElem hlt, Option.getD_some,
      u32_natCast buf[i] (by omega), List.append_nil, List.cons_append, List.append_assoc,
      List.length_cons, List.nil_append]

theorem writeSegs_spec (buf : List Nat) (hbytes : ∀ b ∈ buf, b < 256) (txs : List (List Nat))
    (hlen : txs.length ≤ buf.length) :
    writeSegs 0 buf txs = writePathSpec (buf.take txs.length) txs := by
  cases txs with
  | nil => simp [writeSegs, writePathSpec]
  | cons p ps =>
    simp only [List.length_cons] at hlen
    have hlt : 0 < buf.length := by omega
    have hb : buf[0] < 256 := hbytes _ (List.getElem_mem hlt)
    have hcmd : u32 (WRITE_CMD : Int) = WRITE_CMD := by decide
    cases buf with
    | nil => simp at hlt
    | cons b bs =>
      simp only [List.getElem_cons_zero] at hb
      rw [writeSegs, writeSegs_later (b :: bs) hbytes ps 1 (by omega) (by simp at hlen ⊢; omega)]
      simp [writePathSpec, hcmd, u32_natCast b (by omega)]

/-! ## Counting and filtering register writes -/

theorem countP_statusReads (reg : Nat) (p : List Nat) :
    (statusReads p).countP (isWriteTo reg) = 0 := by
  induction p with
  | nil => rfl
  | cons v p ih =>
    simp only [statusReads, List.map_cons] at ih ⊢
    rw [List.countP_cons, ih]; simp [isWriteTo]

theorem writesOf_statusReads (p : List Nat) : writesOf (statusReads p) = [] := by
  induction p with
  | nil => rfl
  | cons v p ih =>
    simp only [statusReads, writesOf, List.map_cons] at ih ⊢
    rw [List.filter_cons, ih]; simp [isWrite]

theorem writesOf_append (a b : List Ev) : writesOf (a ++ b) = writesOf a ++ writesOf b := by
  simp [writesOf]

theorem countP_later (bs : List Nat) (ps : List (List Nat)) :
    ((List.zipWith (fun b p => Ev.w REG_DATAOUT_REG b :: statusReads p) bs ps).flatten).countP
      (isWriteTo REG_STARTXFR_REG) = 0 := by
  induction bs generalizing ps with
  | nil => simp
  | cons b bs ih =>
    cases ps with
    | nil => simp
    | cons p ps =>
      simp only [List.zipWith_cons_cons, List.flatten_cons, List.countP_append, List.countP_cons,
        countP_statusReads, ih ps]
      simp [isWriteTo, REG_STARTXFR_REG, REG_DATAOUT_REG]

theorem writesOf_later (bs : List Nat) (ps : List (List Nat)) (hlen : ps.length = bs.length) :
    writesOf ((List.zipWith (fun b p => Ev.w REG_DATAOUT_REG b :: statusReads p) bs ps).flatten)
      = bs.map (Ev.w REG_DATAOUT_REG) := by
  induction bs generalizing ps with
  | nil => simp [writesOf]
  | cons b bs ih =>
    cases ps with
    | nil => simp at hlen
    | cons p ps =>
      simp only [List.length_cons, Nat.add_right_cancel_iff] at hlen
      simp only [List.zipWith_cons_cons, List.flatten_cons, writesOf_append, ih ps hlen,
        List.map_cons]
      have : writesOf (Ev.w REG_DATAOUT_REG b :: statusReads p) = [Ev.w REG_DATAOUT_REG b] := by
        have h := writesOf_statusReads p
        simp only [writesOf] at h ⊢
        rw [List.filter_cons, h]; simp [isWrite]
      rw [this]; rfl

theorem countP_writePathSpec (bytes : List Nat) (polls : List (List Nat))
    (hb : bytes ≠ []) (hp : polls ≠ []) :
    (writePathSpec bytes polls).countP (isWriteTo REG_STARTXFR_REG) = 1 := by
  cases bytes with
  | nil => exact absurd rfl hb
  | cons b0 bs =>
    cases polls with
    | nil => exact absurd rfl hp
    | cons p0 ps =>
      simp only [writePathSpec, List.countP_append, countP_later, countP_statusReads]
      simp [List.countP_cons, isWriteTo, REG_STARTXFR_REG, REG_DATAOUT_REG]

theorem wf_bytes (msg : Msg) (hwf : msg.wf = true) : ∀ b ∈ msg.buf, b < 256 := by
  simp only [Msg.wf, Bool.and_eq_true, List.all_eq_true, decide_eq_true_eq] at hwf
  exact hwf.1.2

theorem wf_len (msg : Msg) (hwf : msg.wf = true) : msg.len ≤ msg.buf.length := by
  simp only [Msg.wf, Bool.and_eq_true, List.all_eq_true, decide_eq_true_eq] at hwf
  exact hwf.2

theorem wf_addr (msg : Msg) (hwf : msg.wf = true) : msg.addr < 65536 := by
  simp only [Msg.wf, Bool.and_eq_true, List.all_eq_true, decide_eq_true_eq] at hwf
  exact hwf.1.1.1.1

/-! ## The Write path (C1) -/

/-- C1, as stated, fails at length 0: on a Write message of length 0, against
hardware whose bus-idle poll ends at once, `rt_i2c_handle_msg` returns 0 and
has written the start-transfer register zero times, not once. -/
theorem handle_msg_empty_write_no_start :
    rt_i2c_handle_msg emptyWrite { resp := [0], trace := [] }
        = Res.ok (0, emptyWrite)
            { resp := [], trace := [Ev.r REG_STATUS_REG 0, Ev.w REG_BYTECNT_REG 0xFFFFFFFF] }
      ∧ (rt_i2c_handle_msg emptyWrite { resp := [0], trace := [] }).hw.trace.countP
          (isWriteTo REG_STARTXFR_REG) = 0 := by
  decide

/-- C1, amended to lengths 1..=63: for a Write message (no read flag, no 10-bit
flag) of length L in 1..=63, on hardware whose bus-idle poll and L tx-ready
polls terminate, `rt_i2c_handle_msg` returns 0 and makes exactly: the bus-idle
poll, the byte-count write L-1, then the write path of the specification (first
byte to data-out, WRITE_CMD to start-transfer right after it, a tx-ready poll;
then each later byte to data-out followed by its tx-ready poll). The
start-transfer register is written exactly once. -/
theorem handle_msg_write_one_start (msg : Msg) (hwf : msg.wf = true)
    (hten : msg.flags &&& I2C_M_TEN = 0) (hrd : msg.flags &&& I2C_M_RD = 0)
    (h1 : 1 ≤ msg.len) (hlen : msg.len ≤ 63)
    (idle : List Nat) (hidle : isPoll busy idle = true)
    (txs : List (List Nat)) (hn : txs.length = msg.len)
    (htx : ∀ p ∈ txs, isPoll txPending p = true) (rest : List Nat) (t : List Ev) :
    rt_i2c_handle_msg msg { resp := idle ++ txs.flatten ++ rest, trace := t }
        = Res.ok (0, msg) { resp := rest, trace := t ++ (statusReads idle
            ++ [Ev.w REG_BYTECNT_REG (msg.len - 1)]
            ++ writePathSpec (msg.buf.take msg.len) txs) }
      ∧ (statusReads idle ++ [Ev.w REG_BYTECNT_REG (msg.len - 1)]
            ++ writePathSpec (msg.buf.take msg.len) txs).countP (isWriteTo REG_STARTXFR_REG) = 1
      ∧ (∃ b0 bs p0 ps, msg.buf.take msg.len = b0 :: bs ∧ txs = p0 :: ps
            ∧ ps.length = bs.length) := by
  have hbl := wf_len msg hwf
  have hspec := writeSegs_spec msg.buf (wf_bytes msg hwf) txs (by omega)
  have hb : u32 ((msg.len : Int) - 1) = msg.len - 1 := u32_pred msg.len h1 (by omega)
  have hbytes : msg.buf.take msg.len ≠ [] := by
    intro h
    have := congrArg List.length h
    simp only [List.length_take, List.length_nil] at this
    omega
  have hpolls : txs ≠ [] := by
    intro h; rw [h] at hn; simp at hn; omega
  refine ⟨?_, ?_, ?_⟩
  · rw [handle_write_ok msg hten hrd hlen idle hidle txs hn htx rest t, hspec, hn, hb]
    simp only [List.append_assoc]
  · simp only [List.countP_append, countP_statusReads, countP_writePathSpec _ _ hbytes hpolls]
    simp [List.countP_cons, isWriteTo, REG_STARTXFR_REG, REG_BYTECNT_REG]
  · cases hbt : msg.buf.take msg.len with
    | nil => exact absurd hbt hbytes
    | cons b0 bs =>
      cases htxs : txs with
      | nil => exact absurd htxs hpolls
      | cons p0 ps =>
        refine ⟨b0, bs, p0, ps, rfl, rfl, ?_⟩
        have h2 := congrArg List.length hbt
        simp only [List.length_take, List.length_cons] at h2
        rw [htxs] at hn
        simp only [List.length_cons] at hn
        omega

/-- Witness of `handle_msg_write_one_start`: a Write message of 3 bytes, a
bus-idle poll of two reads and tx-ready polls of 2, 1 and 2 reads. -/
theorem handle_msg_write_one_start_witness :
    rt_i2c_handle_msg write3 { resp := [1, 0] ++ [[0, 2], [2], [0, 2]].flatten ++ [7], trace := [] }
        = Res.ok (0, write3) { resp := [7], trace := [] ++ (statusReads [1, 0]
            ++ [Ev.w REG_BYTECNT_REG (write3.len - 1)]
            ++ writePathSpec (write3.buf.take write3.len) [[0, 2], [2], [0, 2]]) }
      ∧ (statusReads [1, 0] ++ [Ev.w REG_BYTECNT_REG (write3.len - 1)]
            ++ writePathSpec (write3.buf.take write3.len) [[0, 2], [2], [0, 2]]).countP
              (isWriteTo REG_STARTXFR_REG) = 1
      ∧ (∃ b0 bs p0 ps, write3.buf.take write3.len = b0 :: bs ∧ [[0, 2], [2], [0, 2]] = p0 :: ps
            ∧ ps.length = bs.length) :=
  handle_msg_write_one_start write3 (by decide) (by decide) (by decide) (by decide) (by decide)
    [1, 0] (by decide) [[0, 2], [2], [0, 2]] (by decide) (by decide) [7] []

/-! ## The Read path (C2) -/

theorem countP_readPathSpec (reg : Nat) (rds : List (List Nat × Nat)) :
    (readPathSpec rds).countP (isWriteTo reg) = 0 := by
  induction rds with
  | nil => rfl
  | cons x xs ih =>
    simp only [readPathSpec, List.map_cons, List.flatten_cons] at ih ⊢
    rw [List.countP_append, ih, List.countP_append, countP_statusReads]
    simp [isWriteTo]

theorem handle_reject_len (msg : Msg) (hlen : 63 < msg.len) (h : Hw) :
    rt_i2c_handle_msg msg h = Res.ok (-EINVAL, msg) h := by
  have hmax : msg.len > MAX_SIZE := by simpa [MAX_SIZE] using hlen
  unfold rt_i2c_handle_msg
  by_cases hten : msg.flags &&& I2C_M_TEN ≠ 0
  · rw [if_pos hten]; rfl
  · rw [if_neg hten, if_pos hmax]; rfl

theorem handle_reject_ten (msg : Msg) (hten : msg.flags &&& I2C_M_TEN ≠ 0) (h : Hw) :
    rt_i2c_handle_msg msg h = Res.ok (-EINVAL, msg) h := by
  unfold rt_i2c_handle_msg
  rw [if_pos hten]; rfl

/-- C2, as stated, fails at L = 130: against hardware that is ready at every
read, `rt_i2c_handle_msg` on the 130-byte Read message returns `-EINVAL`, has
made no register access (no byte-count write, no start command, no data-in
read) and has stored nothing in the buffer. -/
theorem handle_msg_read130_rejected :
    rt_i2c_handle_msg read130 readyHw = Res.ok (-22, read130) readyHw
      ∧ (rt_i2c_handle_msg read130 readyHw).hw.trace.countP (isWriteTo REG_STARTXFR_REG) = 0 := by
  have h : rt_i2c_handle_msg read130 readyHw = Res.ok (-22, read130) readyHw :=
    handle_reject_len read130 (by decide) readyHw
  refine ⟨h, ?_⟩
  rw [h]; rfl

/-- C2, amended to the lengths the code accepts: for a Read message (no 10-bit
flag) of length L in 0..=63 with a buffer of at least L bytes, on hardware
whose polls terminate, `rt_i2c_handle_msg` returns 0 and makes floor(L/64) = 0
full blocks, one bus-idle poll and, iff L mod 64 is nonzero, one remainder
block with byte-count (L mod 64) - 1, one read-start command and L mod 64
rx-ready-polled data-in reads; the number of start commands is ceil(L/64), and
the low 8 bits of the L values read land in the buffer in order. For every
L > 63 the message is rejected with `-EINVAL` and no register access. -/
theorem handle_msg_read_blocks (msg : Msg) (hten : msg.flags &&& I2C_M_TEN = 0)
    (hrd : msg.flags &&& I2C_M_RD ≠ 0) :
    (msg.len ≤ 63 → msg.len ≤ msg.buf.length →
      ∀ (idle : List Nat) (rds : List (List Nat × Nat)) (rest : List Nat) (t : List Ev),
        isPoll busy idle = true → rds.length = msg.len →
        (∀ x ∈ rds, isPoll rxPending x.1 = true) →
        rt_i2c_handle_msg msg { resp := idle ++ readResp rds ++ rest, trace := t }
            = Res.ok (0, { msg with buf := rds.map (fun x => x.2 % 256) ++ msg.buf.drop msg.len })
                { resp := rest, trace := t ++ (statusReads idle
                  ++ (if msg.len % 64 ≠ 0 then
                        [Ev.w REG_BYTECNT_REG (msg.len % 64 - 1), Ev.w REG_STARTXFR_REG READ_CMD]
                      else [])
                  ++ readPathSpec rds) }
          ∧ msg.len / 64 = 0
          ∧ (statusReads idle
                ++ (if msg.len % 64 ≠ 0 then
                      [Ev.w REG_BYTECNT_REG (msg.len % 64 - 1), Ev.w REG_STARTXFR_REG READ_CMD]
                    else [])
                ++ readPathSpec rds).countP (isWriteTo REG_STARTXFR_REG) = (msg.len + 63) / 64)
      ∧ (63 < msg.len → ∀ h : Hw, rt_i2c_handle_msg msg h = Res.ok (-EINVAL, msg) h) := by
  refine ⟨?_, fun hlen h => handle_reject_len msg hlen h⟩
  intro hlen hbuf idle rds rest t hidle hn hrx
  refine ⟨?_, by omega, ?_⟩
  · rw [handle_read_ok msg hten hrd hlen idle hidle rds hn hrx rest t,
      storeAt_eq _ 0 msg.buf (by simp [hn]; exact hbuf)]
    simp [hn, List.append_assoc]
  · simp only [List.countP_append, countP_statusReads, countP_readPathSpec]
    by_cases h0 : msg.len % 64 = 0
    · have : (msg.len + 63) / 64 = 0 := by omega
      simp [h0, this]
    · have : (msg.len + 63) / 64 = 1 := by omega
      simp [h0, this, List.countP_cons, isWriteTo, REG_STARTXFR_REG, REG_BYTECNT_REG]

/-- Witness of `handle_msg_read_blocks`: a 2-byte Read message is served with
byte-count 1 and one start command; a 64-byte one is rejected. -/
theorem handle_msg_read_blocks_witness :
    rt_i2c_handle_msg read2
        { resp := [1, 0] ++ readResp [([0, 4], 0x1FF), ([4], 7)] ++ [99], trace := [] }
      = Res.ok (0, { read2 with buf := [0xFF, 7, 9] })
          { resp := [99], trace := [Ev.r REG_STATUS_REG 1, Ev.r REG_STATUS_REG 0,
              Ev.w REG_BYTECNT_REG 1, Ev.w REG_STARTXFR_REG READ_CMD,
              Ev.r REG_STATUS_REG 0, Ev.r REG_STATUS_REG 4, Ev.r REG_DATAIN_REG 0x1FF,
              Ev.r REG_STATUS_REG 4, Ev.r REG_DATAIN_REG 7] } :=
  ((handle_msg_read_blocks read2 (by decide) (by decide)).1 (by decide) (by decide)
    [1, 0] [([0, 4], 0x1FF), ([4], 7)] [99] [] (by decide) (by decide) (by decide)).1

/-! ## The message loop of `rt_i2c_master_xfer` -/

theorem master_xfer_apply (m : List Msg) (h : Hw) :
    rt_i2c_master_xfer m h
      = xferLoop m 0 0 { resp := h.resp, trace := h.trace ++ addrWrites m } := by
  simp only [rt_i2c_master_xfer, bind_apply, w32_apply, List.append_assoc, List.singleton_append]
  rfl

theorem xferLoop_nil (ret : Int) (i : Nat) (h : Hw) :
    xferLoop [] ret i h = Res.ok ((i : Int), []) h := by
  simp [xferLoop, pure_apply]

theorem xferLoop_ok (msg m1 : Msg) (rest : List Msg) (i : Nat) (h h1 : Hw)
    (hm : rt_i2c_handle_msg msg h = Res.ok (0, m1) h1) :
    xferLoop (msg :: rest) 0 i h
      = match xferLoop rest 0 (i + 1) h1 with
        | Res.ok (x, rest1) h2 => Res.ok (x, m1 :: rest1) h2
        | Res.hang h2 => Res.hang h2 := by
  simp only [xferLoop, ne_eq, not_true_eq_false, if_false, bind_apply, hm, lt_self_iff_false,
    pure_apply]
  cases xferLoop rest 0 (i + 1) h1 <;> rfl

theorem xferLoop_err (msg m1 : Msg) (rest : List Msg) (i : Nat) (h h1 : Hw) (r : Int)
    (hr : r < 0) (hm : rt_i2c_handle_msg msg h = Res.ok (r, m1) h1) :
    xferLoop (msg :: rest) 0 i h = Res.ok (r, m1 :: rest) h1 := by
  simp only [xferLoop, ne_eq, not_true_eq_false, if_false, bind_apply, hm, hr, if_true, pure_apply]

theorem xferLoop_hang (msg : Msg) (rest : List Msg) (i : Nat) (h h1 : Hw)
    (hm : rt_i2c_handle_msg msg h = Res.hang h1) :
    xferLoop (msg :: rest) 0 i h = Res.hang h1 := by
  simp only [xferLoop, ne_eq, not_true_eq_false, if_false, bind_apply, hm]

/-! ## One Write message through `rt_i2c_master_xfer` (C3) -/

/-- C3: for an address `A`, a Write message (no read flag, no 10-bit flag) with
the bytes `b0 :: bs` (L = 1 + |bs| ≤ 63, the buffer may hold more), on hardware
whose polls terminate, `rt_i2c_master_xfer` on the one-message transaction
returns 1 and makes exactly: device-address = A, sub-address = 0, the bus-idle
poll, byte-count = L - 1, data-out = b0, start-transfer = WRITE_CMD, a tx-ready
poll, then for each later byte data-out = b followed by a tx-ready poll. Its
register writes are exactly device-address, sub-address, byte-count, data-out
b0, start-transfer, data-out b1 .. b(L-1). -/
theorem master_xfer_single_write (A fl b0 : Nat) (bs extra : List Nat)
    (hA : A < 65536) (hten : fl &&& I2C_M_TEN = 0) (hrd : fl &&& I2C_M_RD = 0)
    (hb0 : b0 < 256) (hbs : ∀ b ∈ bs, b < 256) (hextra : ∀ b ∈ extra, b < 256)
    (hlen : bs.length + 1 ≤ 63)
    (idle : List Nat) (hidle : isPoll busy idle = true)
    (p0 : List Nat) (ps : List (List Nat)) (hn : ps.length = bs.length)
    (hp0 : isPoll txPending p0 = true) (hps : ∀ p ∈ ps, isPoll txPending p = true)
    (rest : List Nat) (t : List Ev) :
    rt_i2c_master_xfer [{ addr := A, flags := fl, len := bs.length + 1, buf := b0 :: bs ++ extra }]
        { resp := idle ++ (p0 :: ps).flatten ++ rest, trace := t }
      = Res.ok (1, [{ addr := A, flags := fl, len := bs.length + 1, buf := b0 :: bs ++ extra }])
          { resp := rest, trace := t ++ ([Ev.w REG_DEVADDR_REG A, Ev.w REG_ADDR_REG 0]
            ++ statusReads idle
            ++ [Ev.w REG_BYTECNT_REG bs.length, Ev.w REG_DATAOUT_REG b0,
                Ev.w REG_STARTXFR_REG WRITE_CMD]
            ++ statusReads p0
            ++ (List.zipWith (fun b p => Ev.w REG_DATAOUT_REG b :: statusReads p) bs ps).flatten) }
    ∧ writesOf ([Ev.w REG_DEVADDR_REG A, Ev.w REG_ADDR_REG 0]
            ++ statusReads idle
            ++ [Ev.w REG_BYTECNT_REG bs.length, Ev.w REG_DATAOUT_REG b0,
                Ev.w REG_STARTXFR_REG WRITE_CMD]
            ++ statusReads p0
            ++ (List.zipWith (fun b p => Ev.w REG_DATAOUT_REG b :: statusReads p) bs ps).flatten)
        = [Ev.w REG_DEVADDR_REG A, Ev.w REG_ADDR_REG 0, Ev.w REG_BYTECNT_REG bs.length,
            Ev.w REG_DATAOUT_REG b0, Ev.w REG_STARTXFR_REG WRITE_CMD]
          ++ bs.map (Ev.w REG_DATAOUT_REG) := by
  constructor
  · have hbytes : ∀ b ∈ b0 :: bs ++ extra, b < 256 := by
      intro b hb
      simp only [List.cons_append, List.mem_cons, List.mem_append] at hb
      rcases hb with rfl | hb | hb
      · exact hb0
      · exact hbs b hb
      · exact hextra b hb
    have htx : ∀ p ∈ p0 :: ps, isPoll txPending p = true := by
      intro p hp
      rcases List.mem_cons.1 hp with rfl | hp
      · exact hp0
      · exact hps p hp
    have hm := handle_write_ok
      { addr := A, flags := fl, len := bs.length + 1, buf := b0 :: bs ++ extra } hten hrd hlen
      idle hidle (p0 :: ps) (by simp [hn]) htx rest
      (t ++ [Ev.w REG_DEVADDR_REG A, Ev.w REG_ADDR_REG 0])
    have hspec := writeSegs_spec (b0 :: bs ++ extra) hbytes (p0 :: ps) (by simp [hn])
    have htake : List.take (p0 :: ps).length (b0 :: bs ++ extra) = b0 :: bs := by
      simp only [List.length_cons, hn, List.cons_append, List.take_succ_cons, List.take_left']
    have hcnt : u32 (((bs.length + 1 : Nat) : Int) - 1) = bs.length := by
      rw [u32_pred (bs.length + 1) (by omega) (by omega)]; rfl
    rw [master_xfer_apply]
    simp only [addrWrites, headAddr, u32_natCast A (by omega)]
    simp only [hspec, htake, writePathSpec, hcnt] at hm
    rw [xferLoop_ok _ _ [] 0 _ _ hm, xferLoop_nil]
    simp [List.append_assoc]
  · simp only [writesOf_append, writesOf_statusReads, writesOf_later bs ps hn, List.append_nil]
    rfl

/-- Witness of `master_xfer_single_write`, scenario A: address 0x50 and a Write
message of 10 bytes give byte-count 9 and 10 data-out writes. -/
theorem master_xfer_single_write_witness :
    rt_i2c_master_xfer [write10]
        { resp := [1, 0] ++ ([0, 2] :: [[2], [2], [2], [2], [0, 0, 2], [2], [2], [2], [6]]).flatten
            ++ [], trace := [] }
      = Res.ok (1, [write10])
          { resp := [], trace := [] ++ ([Ev.w REG_DEVADDR_REG 0x50, Ev.w REG_ADDR_REG 0]
            ++ statusReads [1, 0]
            ++ [Ev.w REG_BYTECNT_REG 9, Ev.w REG_DATAOUT_REG 10, Ev.w REG_STARTXFR_REG WRITE_CMD]
            ++ statusReads [0, 2]
            ++ (List.zipWith (fun b p => Ev.w REG_DATAOUT_REG b :: statusReads p)
                  [11, 12, 13, 14, 15, 16, 17, 18, 19]
                  [[2], [2], [2], [2], [0, 0, 2], [2], [2], [2], [6]]).flatten) } :=
  (master_xfer_single_write 0x50 0 10 [11, 12, 13, 14, 15, 16, 17, 18, 19] []
    (by decide) (by decide) (by decide) (by decide) (by decide) (by decide) (by decide)
    [1, 0] (by decide) [0, 2] [[2], [2], [2], [2], [0, 0, 2], [2], [2], [2], [6]]
    (by decide) (by decide) (by decide) [] []).1

/-! ## The two validation errors (C4, C5) -/

theorem bind_ok {α β : Type} (m : HwM α) (f : α → HwM β) (h h2 : Hw) (b : β)
    (hb : (m >>= f) h = Res.ok b h2) : ∃ a h1, m h = Res.ok a h1 ∧ f a h1 = Res.ok b h2 := by
  rw [bind_apply] at hb
  cases hm : m h with
  | ok a h1 => rw [hm] at hb; exact ⟨a, h1, rfl, hb⟩
  | hang h1 => rw [hm] at hb; cases hb

theorem pure_ok {α : Type} (a b : α) (h h2 : Hw) (hb : (pure a : HwM α) h = Res.ok b h2) :
    a = b := by
  rw [pure_apply] at hb
  injection hb

theorem handle_valid_ret (msg : Msg) (hten : msg.flags &&& I2C_M_TEN = 0) (hlen : msg.len ≤ 63)
    (h h2 : Hw) (r : Int) (m1 : Msg) (hr : rt_i2c_handle_msg msg h = Res.ok (r, m1) h2) :
    r = 0 := by
  have hmax : ¬ msg.len > MAX_SIZE := by simp [MAX_SIZE]; omega
  unfold rt_i2c_handle_msg at hr
  rw [if_neg (by simp [hten]), if_neg hmax] at hr
  by_cases hrd : msg.flags &&& I2C_M_RD ≠ 0
  · rw [if_pos hrd] at hr
    obtain ⟨a1, h1, -, hr⟩ := bind_ok _ _ _ _ _ hr
    obtain ⟨a2, h3, -, hr⟩ := bind_ok _ _ _ _ _ hr
    by_cases hrem : msg.len % READ_BLOCK ≠ 0
    · simp only [if_pos hrem] at hr
      obtain ⟨a3, h4, -, hr⟩ := bind_ok _ _ _ _ _ hr
      obtain ⟨a4, h5, -, hr⟩ := bind_ok _ _ _ _ _ hr
      obtain ⟨a5, h6, -, hr⟩ := bind_ok _ _ _ _ _ hr
      have := pure_ok _ _ _ _ hr
      exact (congrArg Prod.fst this).symm
    · simp only [if_neg hrem] at hr
      obtain ⟨a3, h4, -, hr⟩ := bind_ok _ _ _ _ _ hr
      obtain ⟨a5, h6, -, hr⟩ := bind_ok _ _ _ _ _ hr
      have := pure_ok _ _ _ _ hr
      exact (congrArg Prod.fst this).symm
  · rw [if_neg hrd] at hr
    obtain ⟨a1, h1, -, hr⟩ := bind_ok _ _ _ _ _ hr
    obtain ⟨a2, h3, -, hr⟩ := bind_ok _ _ _ _ _ hr
    obtain ⟨a3, h4, -, hr⟩ := bind_ok _ _ _ _ _ hr
    have := pure_ok _ _ _ _ hr
    exact (congrArg Prod.fst this).symm

/-- C4: a Write message without the 10-bit flag is rejected by
`rt_i2c_handle_msg` with `-EINVAL` exactly when its length exceeds 63: above 63
the call returns `-EINVAL` leaving the hardware state as it was (no register
read, no register write, no response consumed) and the message unchanged; up to
63 no run returns anything but 0, and on hardware whose polls terminate the
call does return 0. -/
theorem handle_msg_write_length_bound (msg : Msg) (hten : msg.flags &&& I2C_M_TEN = 0)
    (hrd : msg.flags &&& I2C_M_RD = 0) :
    (63 < msg.len → ∀ h : Hw, rt_i2c_handle_msg msg h = Res.ok (-EINVAL, msg) h)
    ∧ (msg.len ≤ 63 → ∀ (h h2 : Hw) (r : Int) (m1 : Msg),
        rt_i2c_handle_msg msg h = Res.ok (r, m1) h2 → r = 0)
    ∧ (msg.len ≤ 63 → ∀ (idle : List Nat) (txs : List (List Nat)) (rest : List Nat) (t : List Ev),
        isPoll busy idle = true → txs.length = msg.len →
        (∀ p ∈ txs, isPoll txPending p = true) →
        ∃ t2, rt_i2c_handle_msg msg { resp := idle ++ txs.flatten ++ rest, trace := t }
          = Res.ok (0, msg) { resp := rest, trace := t2 }) := by
  refine ⟨fun hlen h => handle_reject_len msg hlen h, ?_, ?_⟩
  · intro hlen h h2 r m1 hr
    exact handle_valid_ret msg hten hlen h h2 r m1 hr
  · intro hlen idle txs rest t hidle hn htx
    exact ⟨_, handle_write_ok msg hten hrd hlen idle hidle txs hn htx rest t⟩

/-- Witness of `handle_msg_write_length_bound`: length 64 is rejected without
any register access, length 63 returns 0 when every poll ends at its first
read. -/
theorem handle_msg_write_length_bound_witness :
    rt_i2c_handle_msg write64 { resp := List.replicate 65 2, trace := [] }
        = Res.ok (-EINVAL, write64) { resp := List.replicate 65 2, trace := [] }
      ∧ ∃ t2, rt_i2c_handle_msg write63
          { resp := [0] ++ (List.replicate 63 [2]).flatten ++ [], trace := [] }
          = Res.ok (0, write63) { resp := [], trace := t2 } :=
  ⟨(handle_msg_write_length_bound write64 (by decide) (by decide)).1 (by decide) _,
   (handle_msg_write_length_bound write63 (by decide) (by decide)).2.2 (by decide)
      [0] (List.replicate 63 [2]) [] [] (by decide) (by decide)
      (fun p hp => by rw [List.eq_of_mem_replicate hp]; decide)⟩

/-- C5: a message with the 10-bit-address flag set, whatever its direction,
length and buffer, makes `rt_i2c_handle_msg` return `-EINVAL` with the hardware
state as it was (no register read, no register write) and the message, buffer
included, unchanged. -/
theorem handle_msg_ten_bit_rejected (msg : Msg) (h : Hw)
    (hten : msg.flags &&& I2C_M_TEN ≠ 0) :
    rt_i2c_handle_msg msg h = Res.ok (-EINVAL, msg) h :=
  handle_reject_ten msg hten h

/-- Witness of `handle_msg_ten_bit_rejected`. -/
theorem handle_msg_ten_bit_rejected_witness :
    rt_i2c_handle_msg tenBitRead { resp := [0, 4, 5, 4, 6], trace := [] }
      = Res.ok (-22, tenBitRead) { resp := [0, 4, 5, 4, 6], trace := [] } :=
  handle_msg_ten_bit_rejected tenBitRead _ (by decide)

/-! ## What the transfer engine never writes -/

theorem emits_pure {α : Type} (P : Ev → Prop) (a : α) : Emits P (pure a : HwM α) := by
  intro h
  exact ⟨[], by simp [pure_apply, Res.hw], by simp⟩

theorem emits_bind {α β : Type} (P : Ev → Prop) (m : HwM α) (f : α → HwM β)
    (hm : Emits P m) (hf : ∀ a, Emits P (f a)) : Emits P (m >>= f) := by
  intro h
  obtain ⟨t1, ht1, hP1⟩ := hm h
  rw [bind_apply]
  cases hmh : m h with
  | hang h1 =>
    rw [hmh] at ht1
    exact ⟨t1, ht1, hP1⟩
  | ok a h1 =>
    rw [hmh] at ht1
    obtain ⟨t2, ht2, hP2⟩ := hf a h1
    refine ⟨t1 ++ t2, ?_, ?_⟩
    · simp only [Res.hw] at ht1
      simp only [ht2, ht1, List.append_assoc]
    · intro e he
      rcases List.mem_append.1 he with he | he
      · exact hP1 e he
      · exact hP2 e he

theorem emits_w32 (P : Ev → Prop) (val : Int) (reg : Nat) (hP : P (Ev.w reg (u32 val))) :
    Emits P (rt_i2c_w32 val reg) := by
  intro h
  refine ⟨[Ev.w reg (u32 val)], by simp [w32_apply, Res.hw], ?_⟩
  intro e he
  rw [List.mem_singleton.1 he]; exact hP

theorem emits_r32 (P : Ev → Prop) (reg : Nat) (hP : ∀ v, P (Ev.r reg v)) :
    Emits P (rt_i2c_r32 reg) := by
  intro h
  unfold rt_i2c_r32
  cases hr : h.resp with
  | nil => exact ⟨[], by simp [Res.hw], by simp⟩
  | cons v rs =>
    refine ⟨[Ev.r reg v], by simp [Res.hw], ?_⟩
    intro e he
    rw [List.mem_singleton.1 he]; exact hP v

theorem spin_trace (P : Ev → Prop) (hP : ∀ v, P (Ev.r REG_STATUS_REG v)) (again : Nat → Bool)
    (resp : List Nat) (t : List Ev) :
    ∃ tail, (spin again resp t).hw.trace = t ++ tail ∧ ∀ e ∈ tail, P e := by
  induction resp generalizing t with
  | nil => exact ⟨[], by simp [spin, Res.hw], by simp⟩
  | cons v rs ih =>
    unfold spin
    by_cases hv : again v = true
    · rw [if_pos hv]
      obtain ⟨t2, ht2, hP2⟩ := ih (t ++ [Ev.r REG_STATUS_REG v])
      refine ⟨Ev.r REG_STATUS_REG v :: t2, by simp [ht2], ?_⟩
      intro e he
      rcases List.mem_cons.1 he with rfl | he
      · exact hP v
      · exact hP2 e he
    · rw [if_neg hv]
      refine ⟨[Ev.r REG_STATUS_REG v], by simp [Res.hw], ?_⟩
      intro e he
      rw [List.mem_singleton.1 he]; exact hP v

theorem emits_wait_idle (P : Ev → Prop) (hP : ∀ v, P (Ev.r REG_STATUS_REG v)) :
    Emits P rt_i2c_wait_idle := by
  intro h
  obtain ⟨tail, ht, hPt⟩ := spin_trace P hP busy h.resp h.trace
  refine ⟨tail, ?_, hPt⟩
  unfold rt_i2c_wait_idle
  cases hs : spin busy h.resp h.trace <;> rw [hs] at ht <;> exact ht

theorem emits_wait_tx_done (P : Ev → Prop) (hP : ∀ v, P (Ev.r REG_STATUS_REG v)) :
    Emits P rt_i2c_wait_tx_done := by
  intro h
  obtain ⟨tail, ht, hPt⟩ := spin_trace P hP txPending h.resp h.trace
  refine ⟨tail, ?_, hPt⟩
  unfold rt_i2c_wait_tx_done
  cases hs : spin txPending h.resp h.trace <;> rw [hs] at ht <;> exact ht

theorem emits_wait_rx_done (P : Ev → Prop) (hP : ∀ v, P (Ev.r REG_STATUS_REG v)) :
    Emits P rt_i2c_wait_rx_done := by
  intro h
  obtain ⟨tail, ht, hPt⟩ := spin_trace P hP rxPending h.resp h.trace
  refine ⟨tail, ?_, hPt⟩
  unfold rt_i2c_wait_rx_done
  cases hs : spin rxPending h.resp h.trace <;> rw [hs] at ht <;> exact ht

theorem notAddrWrite_read (reg v : Nat) : notAddrWrite (Ev.r reg v) := ⟨rfl, rfl⟩

theorem emits_readBytes (n pos : Nat) (buf : List Nat) :
    Emits notAddrWrite (readBytes n pos buf) := by
  induction n generalizing pos buf with
  | zero => exact emits_pure _ _
  | succ n ih =>
    unfold readBytes
    refine emits_bind _ _ _ (emits_wait_rx_done _ (notAddrWrite_read _)) (fun _ => ?_)
    refine emits_bind _ _ _ (emits_r32 _ _ (notAddrWrite_read _)) (fun v => ?_)
    exact ih _ _

theorem emits_readBlocks (n pos : Nat) (buf : List Nat) :
    Emits notAddrWrite (readBlocks n pos buf) := by
  induction n generalizing pos buf with
  | zero => exact emits_pure _ _
  | succ n ih =>
    unfold readBlocks
    refine emits_bind _ _ _ (emits_wait_idle _ (notAddrWrite_read _)) (fun _ => ?_)
    refine emits_bind _ _ _ (emits_w32 _ _ _ ⟨rfl, rfl⟩) (fun _ => ?_)
    refine emits_bind _ _ _ (emits_w32 _ _ _ ⟨rfl, rfl⟩) (fun _ => ?_)
    refine emits_bind _ _ _ (emits_readBytes _ _ _) (fun a => ?_)
    exact ih _ _

theorem emits_writeBytes (n i : Nat) (buf : List Nat) :
    Emits notAddrWrite (writeBytes n i buf) := by
  induction n generalizing i with
  | zero => exact emits_pure _ _
  | succ n ih =>
    unfold writeBytes
    refine emits_bind _ _ _ (emits_w32 _ _ _ ⟨rfl, rfl⟩) (fun _ => ?_)
    by_cases hi : i = 0
    · simp only [if_pos hi]
      refine emits_bind _ _ _ (emits_w32 _ _ _ ⟨rfl, rfl⟩) (fun _ => ?_)
      exact emits_bind _ _ _ (emits_wait_tx_done _ (notAddrWrite_read _)) (fun _ => ih _)
    · simp only [if_neg hi]
      refine emits_bind _ _ _ (emits_pure _ _) (fun _ => ?_)
      exact emits_bind _ _ _ (emits_wait_tx_done _ (notAddrWrite_read _)) (fun _ => ih _)

theorem emits_handle_msg (msg : Msg) : Emits notAddrWrite (rt_i2c_handle_msg msg) := by
  unfold rt_i2c_handle_msg
  by_cases hten : msg.flags &&& I2C_M_TEN ≠ 0
  · rw [if_pos hten]; exact emits_pure _ _
  rw [if_neg hten]
  by_cases hmax : msg.len > MAX_SIZE
  · rw [if_pos hmax]; exact emits_pure _ _
  rw [if_neg hmax]
  by_cases hrd : msg.flags &&& I2C_M_RD ≠ 0
  · rw [if_pos hrd]
    refine emits_bind _ _ _ (emits_readBlocks _ _ _) (fun a => ?_)
    refine emits_bind _ _ _ (emits_wait_idle _ (notAddrWrite_read _)) (fun _ => ?_)
    by_cases hrem : msg.len % READ_BLOCK ≠ 0
    · simp only [if_pos hrem]
      refine emits_bind _ _ _ (emits_w32 _ _ _ ⟨rfl, rfl⟩) (fun _ => ?_)
      refine emits_bind _ _ _ (emits_w32 _ _ _ ⟨rfl, rfl⟩) (fun _ => ?_)
      exact emits_bind _ _ _ (emits_readBytes _ _ _) (fun _ => emits_pure _ _)
    · simp only [if_neg hrem]
      refine emits_bind _ _ _ (emits_pure _ _) (fun _ => ?_)
      exact emits_bind _ _ _ (emits_readBytes _ _ _) (fun _ => emits_pure _ _)
  · rw [if_neg hrd]
    refine emits_bind _ _ _ (emits_wait_idle _ (notAddrWrite_read _)) (fun _ => ?_)
    refine emits_bind _ _ _ (emits_w32 _ _ _ ⟨rfl, rfl⟩) (fun _ => ?_)
    exact emits_bind _ _ _ (emits_writeBytes _ _ _) (fun _ => emits_pure _ _)

theorem emits_xferLoop (m : List Msg) (ret : Int) (i : Nat) :
    Emits notAddrWrite (xferLoop m ret i) := by
  induction m generalizing ret i with
  | nil => exact emits_pure _ _
  | cons msg rest ih =>
    unfold xferLoop
    by_cases hret : ret ≠ 0
    · rw [if_pos hret]; exact emits_pure _ _
    rw [if_neg hret]
    refine emits_bind _ _ _ (emits_handle_msg msg) (fun a => ?_)
    by_cases hr : a.1 < 0
    · simp only [if_pos hr]; exact emits_pure _ _
    · simp only [if_neg hr]
      exact emits_bind _ _ _ (ih _ _) (fun _ => emits_pure _ _)

/-! ## Valid messages on the responses that serve them -/

theorem valid_ten (m : Msg) (hv : m.valid = true) : m.flags &&& I2C_M_TEN = 0 := by
  simp only [Msg.valid, Bool.and_eq_true, beq_iff_eq, decide_eq_true_eq] at hv
  exact hv.1

theorem valid_len (m : Msg) (hv : m.valid = true) : m.len ≤ 63 := by
  simp only [Msg.valid, Bool.and_eq_true, beq_iff_eq, decide_eq_true_eq, MAX_SIZE] at hv
  exact hv.2

theorem handle_invalid (m : Msg) (hv : m.valid = false) (h : Hw) :
    rt_i2c_handle_msg m h = Res.ok (-EINVAL, m) h := by
  by_cases hten : m.flags &&& I2C_M_TEN = 0
  · apply handle_reject_len
    by_contra hlen
    have : m.valid = true := by
      simp only [Msg.valid, Bool.and_eq_true, beq_iff_eq, decide_eq_true_eq, MAX_SIZE]
      exact ⟨hten, by omega⟩
    rw [hv] at this; cases this
  · exact handle_reject_ten m hten h

theorem serves_write (m : Msg) (hr : m.isRead = false) (idle : List Nat)
    (txs : List (List Nat)) (hidle : isPoll busy idle = true) (hn : txs.length = m.len)
    (htx : ∀ p ∈ txs, isPoll txPending p = true) : Serves m (idle ++ txs.flatten) := by
  unfold Serves
  rw [if_neg (by simp [hr])]
  exact ⟨idle, txs, hidle, hn, htx, rfl⟩

theorem serves_read (m : Msg) (hr : m.isRead = true) (idle : List Nat)
    (rds : List (List Nat × Nat)) (hidle : isPoll busy idle = true) (hn : rds.length = m.len)
    (hrx : ∀ x ∈ rds, isPoll rxPending x.1 = true) : Serves m (idle ++ readResp rds) := by
  unfold Serves
  rw [if_pos hr]
  exact ⟨idle, rds, hidle, hn, hrx, rfl⟩

theorem handle_served (m : Msg) (hv : m.valid = true) (s : List Nat) (hs : Serves m s)
    (rest : List Nat) (t : List Ev) :
    rt_i2c_handle_msg m { resp := s ++ rest, trace := t }
      = Res.ok (0, handleOut m s) { resp := rest, trace := t ++ handleTrace m s } := by
  have hten := valid_ten m hv
  have hlen := valid_len m hv
  unfold Serves at hs
  by_cases hr : m.isRead = true
  · rw [if_pos hr] at hs
    obtain ⟨idle, rds, hidle, hn, hrx, rfl⟩ := hs
    have hrd : m.flags &&& I2C_M_RD ≠ 0 := by simpa [Msg.isRead] using hr
    have key := handle_read_ok m hten hrd hlen idle hidle rds hn hrx
    have k0 := key [] []
    simp only [List.append_nil, List.nil_append] at k0
    have k1 := key rest t
    simp only [handleOut, handleTrace, k0, Res.hw]
    simp only [List.append_assoc] at k1 ⊢
    exact k1
  · rw [if_neg hr] at hs
    obtain ⟨idle, txs, hidle, hn, htx, rfl⟩ := hs
    have hrd : m.flags &&& I2C_M_RD = 0 := by simpa [Msg.isRead] using hr
    have key := handle_write_ok m hten hrd hlen idle hidle txs hn htx
    have k0 := key [] []
    simp only [List.append_nil, List.nil_append] at k0
    have k1 := key rest t
    simp only [handleOut, handleTrace, k0, Res.hw]
    simp only [List.append_assoc] at k1 ⊢
    exact k1

theorem xferLoop_served (ms : List Msg) (ss : List (List Nat)) (hlen : ss.length = ms.length)
    (hv : ∀ m ∈ ms, m.valid = true) (hs : ∀ p ∈ ms.zip ss, Serves p.1 p.2)
    (i : Nat) (rest : List Nat) (t : List Ev) :
    xferLoop ms 0 i { resp := ss.flatten ++ rest, trace := t }
      = Res.ok (((i + ms.length : Nat) : Int), (ms.zip ss).map (fun p => handleOut p.1 p.2))
          { resp := rest,
            trace := t ++ ((ms.zip ss).map (fun p => handleTrace p.1 p.2)).flatten } := by
  induction ms generalizing ss i t with
  | nil =>
    cases ss with
    | nil => simp [xferLoop_nil]
    | cons s ss => simp at hlen
  | cons m ms ih =>
    cases ss with
    | nil => simp at hlen
    | cons s ss =>
      simp only [List.length_cons, Nat.add_right_cancel_iff] at hlen
      have hm := handle_served m (hv m (List.mem_cons_self _ _)) s
        (hs (m, s) (by simp)) (ss.flatten ++ rest) t
      have ih1 := ih ss hlen (fun x hx => hv x (List.mem_cons_of_mem _ hx))
        (fun p hp => hs p (by simp only [List.zip_cons_cons]; exact List.mem_cons_of_mem _ hp))
        (i + 1) (t ++ handleTrace m s)
      simp only [List.flatten_cons, List.append_assoc] at hm ⊢
      rw [xferLoop_ok m _ ms i _ _ hm, ih1]
      simp only [List.zip_cons_cons, List.map_cons, List.flatten_cons, List.append_assoc,
        List.length_cons]
      congr 3
      omega

theorem runAll_served (ms : List Msg) (ss : List (List Nat)) (hlen : ss.length = ms.length)
    (hv : ∀ m ∈ ms, m.valid = true) (hs : ∀ p ∈ ms.zip ss, Serves p.1 p.2)
    (rest : List Nat) (t : List Ev) :
    runAll ms { resp := ss.flatten ++ rest, trace := t }
      = Res.ok ((ms.zip ss).map (fun p => handleOut p.1 p.2))
          { resp := rest,
            trace := t ++ ((ms.zip ss).map (fun p => handleTrace p.1 p.2)).flatten } := by
  induction ms generalizing ss t with
  | nil =>
    cases ss with
    | nil => simp [runAll, pure_apply]
    | cons s ss => simp at hlen
  | cons m ms ih =>
    cases ss with
    | nil => simp at hlen
    | cons s ss =>
      simp only [List.length_cons, Nat.add_right_cancel_iff] at hlen
      have hm := handle_served m (hv m (List.mem_cons_self _ _)) s
        (hs (m, s) (by simp)) (ss.flatten ++ rest) t
      have ih1 := ih ss hlen (fun x hx => hv x (List.mem_cons_of_mem _ hx))
        (fun p hp => hs p (by simp only [List.zip_cons_cons]; exact List.mem_cons_of_mem _ hp))
        (t ++ handleTrace m s)
      simp only [List.flatten_cons, List.append_assoc] at hm ⊢
      simp only [runAll, bind_apply, hm, ih1, pure_apply, List.zip_cons_cons, List.map_cons,
        List.flatten_cons, List.append_assoc]

theorem xferLoop_stops (pre : List Msg) (bad : Msg) (post : List Msg)
    (hpre : ∀ m ∈ pre, m.valid = true) (hbad : bad.valid = false) (i : Nat) (h : Hw) :
    xferLoop (pre ++ bad :: post) 0 i h
      = match runAll pre h with
        | Res.ok pre1 h1 => Res.ok (-EINVAL, pre1 ++ bad :: post) h1
        | Res.hang h1 => Res.hang h1 := by
  induction pre generalizing i h with
  | nil =>
    have hm := handle_invalid bad hbad h
    simp only [List.nil_append, runAll, pure_apply]
    exact xferLoop_err bad bad post i h h (-EINVAL) (by decide) hm
  | cons m pre ih =>
    have hv := hpre m (List.mem_cons_self _ _)
    have ih1 := ih (fun x hx => hpre x (List.mem_cons_of_mem _ hx))
    simp only [List.cons_append, runAll, bind_apply]
    cases hm : rt_i2c_handle_msg m h with
    | hang h1 => simp only [xferLoop_hang m _ i h h1 hm]
    | ok a h1 =>
      obtain ⟨r, m1⟩ := a
      have hr0 : r = 0 := handle_valid_ret m (valid_ten m hv) (valid_len m hv) h h1 r m1 hm
      subst hr0
      rw [xferLoop_ok m m1 _ i h h1 hm, ih1 (i + 1) h1]
      cases hrun : runAll pre h1 <;> simp [pure_apply, hrun]

/-! ## A 10-bit first message through `rt_i2c_master_xfer` (C6) -/

/-- C6, as stated, fails: on a transaction whose first (only) message has the
10-bit flag set, `rt_i2c_master_xfer` returns `-EINVAL`, and the trace records
two register writes, not zero: the device address and the sub-address are
written before the message is looked at. -/
theorem master_xfer_ten_bit_two_writes :
    rt_i2c_master_xfer [tenBitRead] { resp := [0, 4, 5, 4, 6], trace := [] }
        = Res.ok (-22, [tenBitRead])
            { resp := [0, 4, 5, 4, 6],
              trace := [Ev.w REG_DEVADDR_REG 0x150, Ev.w REG_ADDR_REG 0] }
      ∧ (writesOf (rt_i2c_master_xfer [tenBitRead]
            { resp := [0, 4, 5, 4, 6], trace := [] }).hw.trace).length = 2 := by
  decide

/-- C6, amended: for every transaction whose first message has the 10-bit flag
set, `rt_i2c_master_xfer` returns `-EINVAL` and has made exactly two register
accesses, both writes: device-address = the address of the first message,
sub-address = 0. No response is consumed and every message is unchanged. -/
theorem master_xfer_ten_bit_first (m0 : Msg) (ms : List Msg) (h : Hw)
    (hten : m0.flags &&& I2C_M_TEN ≠ 0) (hA : m0.addr < 65536) :
    rt_i2c_master_xfer (m0 :: ms) h
      = Res.ok (-EINVAL, m0 :: ms)
          { resp := h.resp,
            trace := h.trace ++ [Ev.w REG_DEVADDR_REG m0.addr, Ev.w REG_ADDR_REG 0] } := by
  rw [master_xfer_apply]
  simp only [addrWrites, headAddr, u32_natCast m0.addr (by omega)]
  exact xferLoop_err m0 m0 ms 0 _ _ (-EINVAL) (by decide) (handle_reject_ten m0 hten _)

/-- Witness of `master_xfer_ten_bit_first`. -/
theorem master_xfer_ten_bit_first_witness :
    rt_i2c_master_xfer (tenBitRead :: [write3]) { resp := [0, 2, 2, 2], trace := [] }
      = Res.ok (-EINVAL, tenBitRead :: [write3])
          { resp := [0, 2, 2, 2],
            trace := [] ++ [Ev.w REG_DEVADDR_REG tenBitRead.addr, Ev.w REG_ADDR_REG 0] } :=
  master_xfer_ten_bit_first tenBitRead [write3] { resp := [0, 2, 2, 2], trace := [] }
    (by decide) (by decide)

/-! ## Abort on the first failing message (C7, C8) -/

/-- C7, as stated, fails: on three messages of which the first is valid and
the second is 64 bytes long, `rt_i2c_master_xfer` returns the bare error code
-22; the value is not 1 and carries no count: it is the value returned as well
when the very first message fails and no message completed. -/
theorem master_xfer_abort_returns_error_only :
    (rt_i2c_master_xfer [write3, write64, write3]
        { resp := write3Resp ++ write3Resp, trace := [] }).ret? = some (-22)
      ∧ (rt_i2c_master_xfer [write64, write3, write3]
        { resp := write3Resp ++ write3Resp, trace := [] }).ret? = some (-22)
      ∧ (rt_i2c_master_xfer [write3, write64, write3]
        { resp := write3Resp ++ write3Resp, trace := [] }).ret? ≠ some 1 := by
  decide

/-- C7, amended: for every transaction of three messages in which the first is
valid and served by the hardware and the second is longer than 63 bytes,
`rt_i2c_master_xfer` returns the error `-EINVAL` alone (no count of completed
messages); the accesses made are the two address writes and those of the first
message, the second and third messages are left as they were. -/
theorem master_xfer_abort_second (m1 m2 m3 : Msg) (s rest : List Nat) (t : List Ev)
    (hv : m1.valid = true) (hs : Serves m1 s) (hlen : 63 < m2.len) :
    rt_i2c_master_xfer [m1, m2, m3] { resp := s ++ rest, trace := t }
      = Res.ok (-EINVAL, [handleOut m1 s, m2, m3])
          { resp := rest, trace := t ++ addrWrites [m1] ++ handleTrace m1 s } := by
  rw [master_xfer_apply]
  have hm := handle_served m1 hv s hs rest (t ++ addrWrites [m1, m2, m3])
  rw [xferLoop_ok m1 _ [m2, m3] 0 _ _ hm,
    xferLoop_err m2 m2 [m3] 1 _ _ (-EINVAL) (by decide) (handle_reject_len m2 hlen _)]
  rfl

/-- Witness of `master_xfer_abort_second`. -/
theorem master_xfer_abort_second_witness :
    rt_i2c_master_xfer [write3, write64, read2]
        { resp := ([1, 0] ++ [[0, 2], [2], [0, 2]].flatten) ++ [4, 4], trace := [] }
      = Res.ok (-EINVAL, [handleOut write3 ([1, 0] ++ [[0, 2], [2], [0, 2]].flatten), write64, read2])
          { resp := [4, 4],
            trace := [] ++ addrWrites [write3]
              ++ handleTrace write3 ([1, 0] ++ [[0, 2], [2], [0, 2]].flatten) } :=
  master_xfer_abort_second write3 write64 read2 _ [4, 4] [] (by decide)
    (serves_write write3 (by decide) [1, 0] [[0, 2], [2], [0, 2]] (by decide) (by decide)
      (by decide)) (by decide)

/-- C8: for a transaction `pre ++ bad :: post` whose first invalid message
`bad` (10-bit flag set or length > 63) follows the valid messages `pre`,
`rt_i2c_master_xfer` does, on any hardware, exactly what the two address
writes followed by `rt_i2c_handle_msg` on the messages of `pre` in order do,
and then returns `-EINVAL`: nothing is accessed for `bad` or `post`, which are
returned unchanged, and the messages of `pre` stay as their transfers left
them. When the hardware serves the messages of `pre`, the call returns and its
trace is the two address writes followed by their traces. -/
theorem master_xfer_stops_at_first_invalid (pre : List Msg) (bad : Msg) (post : List Msg)
    (hpre : ∀ m ∈ pre, m.valid = true) (hbad : bad.valid = false) :
    (∀ h : Hw, rt_i2c_master_xfer (pre ++ bad :: post) h
        = match runAll pre
            { resp := h.resp, trace := h.trace ++ addrWrites (pre ++ bad :: post) } with
          | Res.ok pre1 h1 => Res.ok (-EINVAL, pre1 ++ bad :: post) h1
          | Res.hang h1 => Res.hang h1)
    ∧ (∀ (ss : List (List Nat)) (rest : List Nat) (t : List Ev), ss.length = pre.length →
        (∀ p ∈ pre.zip ss, Serves p.1 p.2) →
        rt_i2c_master_xfer (pre ++ bad :: post) { resp := ss.flatten ++ rest, trace := t }
          = Res.ok (-EINVAL, (pre.zip ss).map (fun p => handleOut p.1 p.2) ++ bad :: post)
              { resp := rest,
                trace := t ++ addrWrites (pre ++ bad :: post)
                  ++ ((pre.zip ss).map (fun p => handleTrace p.1 p.2)).flatten }) := by
  have h1 : ∀ h : Hw, rt_i2c_master_xfer (pre ++ bad :: post) h
        = match runAll pre
            { resp := h.resp, trace := h.trace ++ addrWrites (pre ++ bad :: post) } with
          | Res.ok pre1 h1 => Res.ok (-EINVAL, pre1 ++ bad :: post) h1
          | Res.hang h1 => Res.hang h1 := by
    intro h
    rw [master_xfer_apply, xferLoop_stops pre bad post hpre hbad]
  refine ⟨h1, ?_⟩
  intro ss rest t hlen hs
  rw [h1, runAll_served pre ss hlen hpre hs]

/-- Witness of `master_xfer_stops_at_first_invalid`: the 3-byte write is
transferred, the 10-bit message stops the transaction, the last message is not
touched. -/
theorem master_xfer_stops_at_first_invalid_witness :
    rt_i2c_master_xfer ([write3] ++ tenBitRead :: [read2])
        { resp := [write3Resp].flatten ++ [4, 4], trace := [] }
      = Res.ok (-EINVAL,
            ([write3].zip [write3Resp]).map (fun p => handleOut p.1 p.2) ++ tenBitRead :: [read2])
          { resp := [4, 4],
            trace := [] ++ addrWrites ([write3] ++ tenBitRead :: [read2])
              ++ (([write3].zip [write3Resp]).map (fun p => handleTrace p.1 p.2)).flatten } :=
  (master_xfer_stops_at_first_invalid [write3] tenBitRead [read2] (by decide) (by decide)).2
    [write3Resp] [4, 4] [] (by decide)
    (fun p hp => by
      rw [List.mem_singleton.1 hp]
      exact serves_write write3 (by decide) [0] [[2], [2], [2]] (by decide) (by decide)
        (by decide))

/-! ## A transaction of valid messages (C9) -/

/-- C9: for every transaction `ms` of n >= 1 valid messages (no 10-bit flag,
each length <= 63), on hardware that serves them one after the other (every
poll terminates), `rt_i2c_master_xfer` returns n, and its trace is the two
address-register writes followed by the concatenation, in message order, of
the traces `rt_i2c_handle_msg` makes for each message. -/
theorem master_xfer_all_valid (ms : List Msg) (ss : List (List Nat)) (rest : List Nat)
    (t : List Ev) (_hn : 1 ≤ ms.length) (hlen : ss.length = ms.length)
    (hv : ∀ m ∈ ms, m.valid = true) (hs : ∀ p ∈ ms.zip ss, Serves p.1 p.2) :
    rt_i2c_master_xfer ms { resp := ss.flatten ++ rest, trace := t }
      = Res.ok ((ms.length : Int), (ms.zip ss).map (fun p => handleOut p.1 p.2))
          { resp := rest,
            trace := t ++ addrWrites ms
              ++ ((ms.zip ss).map (fun p => handleTrace p.1 p.2)).flatten } := by
  rw [master_xfer_apply, xferLoop_served ms ss hlen hv hs 0 rest]
  simp

/-- Witness of `master_xfer_all_valid`: a 3-byte write followed by a 2-byte
read returns 2. -/
theorem master_xfer_all_valid_witness :
    rt_i2c_master_xfer [write3, read2]
        { resp := [write3Resp, read2Resp].flatten ++ [], trace := [] }
      = Res.ok (2, [write3, { read2 with buf := [0xFF, 7, 9] }])
          { resp := [],
            trace := [] ++ addrWrites [write3, read2]
              ++ [handleTrace write3 write3Resp, handleTrace read2 read2Resp].flatten } :=
  master_xfer_all_valid [write3, read2] [write3Resp, read2Resp] [] [] (by decide) (by decide)
    (by decide)
    (fun p hp => by
      simp only [List.zip_cons_cons, List.zip_nil_right, List.mem_cons, List.mem_singleton,
        List.not_mem_nil, or_false] at hp
      rcases hp with rfl | rfl
      · exact serves_write write3 (by decide) [0] [[2], [2], [2]] (by decide) (by decide)
          (by decide)
      · exact serves_read read2 (by decide) [1, 0] [([0, 4], 0x1FF), ([4], 7)] (by decide)
          (by decide) (by decide))

/-! ## The address is programmed once per transaction (C10) -/

/-- C10: for every transaction with at least one message, on any hardware
(whether the call returns or hangs), the trace of `rt_i2c_master_xfer` starts
with the write of the first message's address to the device-address register
(0x08) followed by the write of 0 to the sub-address register (0x0C), and no
later access is a write to either register, whatever the later messages hold:
each of the two registers is written exactly once. -/
theorem master_xfer_address_once (m0 : Msg) (ms : List Msg) (h : Hw) (hA : m0.addr < 65536) :
    ∃ tail, (rt_i2c_master_xfer (m0 :: ms) h).hw.trace
        = h.trace ++ [Ev.w REG_DEVADDR_REG m0.addr, Ev.w REG_ADDR_REG 0] ++ tail
      ∧ (∀ e ∈ tail, isWriteTo REG_DEVADDR_REG e = false ∧ isWriteTo REG_ADDR_REG e = false)
      ∧ ([Ev.w REG_DEVADDR_REG m0.addr, Ev.w REG_ADDR_REG 0] ++ tail).countP
          (isWriteTo REG_DEVADDR_REG) = 1
      ∧ ([Ev.w REG_DEVADDR_REG m0.addr, Ev.w REG_ADDR_REG 0] ++ tail).countP
          (isWriteTo REG_ADDR_REG) = 1 := by
  obtain ⟨tail, ht, hP⟩ := emits_xferLoop (m0 :: ms) 0 0
    { resp := h.resp, trace := h.trace ++ addrWrites (m0 :: ms) }
  rw [← master_xfer_apply] at ht
  simp only [addrWrites, headAddr, u32_natCast m0.addr (by omega)] at ht
  have hdev : tail.countP (isWriteTo REG_DEVADDR_REG) = 0 :=
    List.countP_eq_zero.2 (fun e he => by simp [(hP e he).1])
  have hsub : tail.countP (isWriteTo REG_ADDR_REG) = 0 :=
    List.countP_eq_zero.2 (fun e he => by simp [(hP e he).2])
  refine ⟨tail, ht, hP, ?_, ?_⟩
  · rw [List.countP_append, hdev]; rfl
  · rw [List.countP_append, hsub]; rfl

/-- Witness of `master_xfer_address_once`: two messages with different address
fields; only the first address is programmed. -/
theorem master_xfer_address_once_witness :
    ∃ tail, (rt_i2c_master_xfer (write3 :: [write1Other])
          { resp := [0, 2, 2, 2, 0, 2], trace := [] }).hw.trace
        = [] ++ [Ev.w REG_DEVADDR_REG write3.addr, Ev.w REG_ADDR_REG 0] ++ tail
      ∧ (∀ e ∈ tail, isWriteTo REG_DEVADDR_REG e = false ∧ isWriteTo REG_ADDR_REG e = false)
      ∧ ([Ev.w REG_DEVADDR_REG write3.addr, Ev.w REG_ADDR_REG 0] ++ tail).countP
          (isWriteTo REG_DEVADDR_REG) = 1
      ∧ ([Ev.w REG_DEVADDR_REG write3.addr, Ev.w REG_ADDR_REG 0] ++ tail).countP
          (isWriteTo REG_ADDR_REG) = 1 :=
  master_xfer_address_once write3 [write1Other] { resp := [0, 2, 2, 2, 0, 2], trace := [] }
    (by decide)

/-! ## Initialisation (C11) -/

/-- C11: `rt_i2c_init` produces, for either variant, exactly this event
sequence: the device reset, a 500-microsecond delay, the write of
`I2C_DEVADLEN_7 | I2C_ADDRDIS` = 0x1A to the config register (0x00), then for
the baseline variant one write of 200 to the clock-divider register (0x04), for
the extended variant the write of `(200 << 16) | SM0CTL0_DEFAULT` = 0x90C80042
to the control register (0x40) followed by the write of 1 to the auxiliary
configuration register (0x28). Nothing else is written and no response is
consumed. -/
theorem init_event_sequence (a : I2cAdapter) (s : Plat) :
    rt_i2c_init a I2C_TYPE_RALINK s
        = { resp := s.resp,
            log := s.log ++ [PEv.reset a.parent, PEv.udelay 500,
              PEv.io (Ev.w 0x00 0x1A), PEv.io (Ev.w 0x04 200)] }
      ∧ rt_i2c_init a I2C_TYPE_MEDIATEK s
        = { resp := s.resp,
            log := s.log ++ [PEv.reset a.parent, PEv.udelay 500,
              PEv.io (Ev.w 0x00 0x1A), PEv.io (Ev.w 0x40 0x90C80042), PEv.io (Ev.w 0x28 1)] }
      ∧ ((I2C_DEVADLEN_7 ||| I2C_ADDRDIS = 0x1A)
          ∧ ((CLKDIV_VALUE <<< 16) ||| SM0CTL0_DEFAULT = 0x90C80042)) := by
  have h1 : u32 ((I2C_DEVADLEN_7 ||| I2C_ADDRDIS : Nat) : Int) = 0x1A := by decide
  have h2 : u32 (CLKDIV_VALUE : Int) = 200 := by decide
  have h3 : u32 (((CLKDIV_VALUE <<< 16) ||| SM0CTL0_DEFAULT : Nat) : Int) = 0x90C80042 := by
    decide
  have h4 : u32 1 = 1 := by decide
  refine ⟨?_, ?_, by decide, by decide⟩
  · simp only [rt_i2c_init, device_reset, udelay, Plat.regs, rt_i2c_default_speed, if_true,
      w32_apply, Res.hw, h1, h2, List.nil_append, List.map_cons, List.map_nil,
      List.append_assoc, List.singleton_append, List.cons_append]
    rfl
  · have hne : ¬ (I2C_TYPE_MEDIATEK = I2C_TYPE_RALINK) := by decide
    simp only [rt_i2c_init, device_reset, udelay, Plat.regs, rt_i2c_default_speed, hne, if_false,
      bind_apply, w32_apply, Res.hw, h1, h3, h4, List.nil_append, List.map_cons, List.map_nil,
      List.append_assoc, List.singleton_append, List.cons_append]
    rfl

/-! ## Capabilities (C12) -/

/-- C12: `rt_i2c_func` returns the flag set `I2C_FUNC_I2C | I2C_FUNC_SMBUS_EMUL`
for every adapter and in every hardware state, leaving that state as it was (no
register access, no response consumed); so any two calls, on whatever adapters
and in whatever states, return the identical value. -/
theorem func_constant (a b : I2cAdapter) (h h2 : Hw) :
    rt_i2c_func a h = Res.ok (I2C_FUNC_I2C ||| I2C_FUNC_SMBUS_EMUL) h
      ∧ (rt_i2c_func a h).val? = (rt_i2c_func b h2).val?
      ∧ (rt_i2c_func a >>= fun v => (rt_i2c_func b >>= fun w => (pure (v, w) : HwM (Nat × Nat)))) h
          = Res.ok (I2C_FUNC_I2C ||| I2C_FUNC_SMBUS_EMUL, I2C_FUNC_I2C ||| I2C_FUNC_SMBUS_EMUL) h := by
  refine ⟨rfl, rfl, rfl⟩

/-! ## The remainder block of the Read path (C13, C14) -/

/-- C13: for a Read message (no 10-bit flag) of length L in 1..=63 with a
buffer of at least L bytes, on hardware whose polls terminate,
`rt_i2c_handle_msg` returns 0 and makes exactly: the bus-idle poll, the write
of L-1 to the byte-count register, the write of READ_CMD = 1 to the
start-transfer register, then L times an rx-ready poll followed by one read of
the data-in register. Afterwards buffer position i holds the low 8 bits of the
i-th value read for every i < L, and the buffer is unchanged from position L
on. -/
theorem handle_msg_read_remainder (msg : Msg) (hten : msg.flags &&& I2C_M_TEN = 0)
    (hrd : msg.flags &&& I2C_M_RD ≠ 0) (h1 : 1 ≤ msg.len) (hlen : msg.len ≤ 63)
    (hbuf : msg.len ≤ msg.buf.length)
    (idle : List Nat) (hidle : isPoll busy idle = true)
    (rds : List (List Nat × Nat)) (hn : rds.length = msg.len)
    (hrx : ∀ x ∈ rds, isPoll rxPending x.1 = true) (rest : List Nat) (t : List Ev) :
    rt_i2c_handle_msg msg { resp := idle ++ readResp rds ++ rest, trace := t }
        = Res.ok (0, { msg with buf := rds.map (fun (x : List Nat × Nat) => x.2 % 256) ++ msg.buf.drop msg.len })
            { resp := rest, trace := t ++ (statusReads idle
              ++ [Ev.w REG_BYTECNT_REG (msg.len - 1), Ev.w REG_STARTXFR_REG 1]
              ++ readPathSpec rds) }
      ∧ (∀ i, i < msg.len →
          (rds.map (fun (x : List Nat × Nat) => x.2 % 256) ++ msg.buf.drop msg.len)[i]?
            = (rds[i]?).map (fun (x : List Nat × Nat) => x.2 % 256))
      ∧ (∀ i, msg.len ≤ i →
          (rds.map (fun (x : List Nat × Nat) => x.2 % 256) ++ msg.buf.drop msg.len)[i]? = msg.buf[i]?)
      ∧ (rds.map (fun (x : List Nat × Nat) => x.2 % 256) ++ msg.buf.drop msg.len).length = msg.buf.length := by
  have h64 : msg.len % 64 = msg.len := by omega
  have hne : msg.len % 64 ≠ 0 := by omega
  refine ⟨?_, ?_, ?_, ?_⟩
  · rw [handle_read_ok msg hten hrd hlen idle hidle rds hn hrx rest t,
      storeAt_eq _ 0 msg.buf (by simp [hn]; exact hbuf)]
    have hl0 : msg.len ≠ 0 := by omega
    simp [hn, h64, hl0, READ_CMD, List.append_assoc]
  · intro i hi
    rw [List.getElem?_append_left (by simp [hn]; exact hi), List.getElem?_map]
  · intro i hi
    rw [List.getElem?_append_right (by simp [hn]; exact hi), List.getElem?_drop]
    simp only [List.length_map, hn]
    congr 1
    omega
  · simp only [List.length_append, List.length_map, List.length_drop, hn]
    omega

/-- Witness of `handle_msg_read_remainder`: a 2-byte read into a buffer of 3;
the data-in values 0x1FF and 7 land as 0xFF and 7, the third byte stays. -/
theorem handle_msg_read_remainder_witness :
    rt_i2c_handle_msg read2
        { resp := [1, 0] ++ readResp [([0, 4], 0x1FF), ([4], 7)] ++ [99], trace := [] }
      = Res.ok (0, { read2 with buf := [0xFF, 7, 9] })
          { resp := [99], trace := [Ev.r REG_STATUS_REG 1, Ev.r REG_STATUS_REG 0,
              Ev.w REG_BYTECNT_REG 1, Ev.w REG_STARTXFR_REG 1,
              Ev.r REG_STATUS_REG 0, Ev.r REG_STATUS_REG 4, Ev.r REG_DATAIN_REG 0x1FF,
              Ev.r REG_STATUS_REG 4, Ev.r REG_DATAIN_REG 7] } :=
  (handle_msg_read_remainder read2 (by decide) (by decide) (by decide) (by decide) (by decide)
    [1, 0] (by decide) [([0, 4], 0x1FF), ([4], 7)] (by decide) (by decide) [99] []).1

theorem spin_status (again : Nat → Bool) (resp : List Nat) (t : List Ev) :
    ∃ p, (spin again resp t).hw.trace = t ++ statusReads p := by
  induction resp generalizing t with
  | nil => exact ⟨[], by simp [spin, Res.hw, statusReads]⟩
  | cons v rs ih =>
    unfold spin
    by_cases hv : again v = true
    · rw [if_pos hv]
      obtain ⟨p, hp⟩ := ih (t ++ [Ev.r REG_STATUS_REG v])
      exact ⟨v :: p, by simp [hp, statusReads]⟩
    · rw [if_neg hv]
      exact ⟨[v], by simp [Res.hw, statusReads]⟩

/-- C14: for a Read message of length 0 without the 10-bit flag,
`rt_i2c_handle_msg` makes no access but the status reads of the bus-idle poll,
on any hardware: no write to the byte-count register, no write to the
start-transfer register, no read of the data-in register. When that poll
terminates it returns 0 with the message, buffer included, unchanged. -/
theorem handle_msg_read_empty (msg : Msg) (hten : msg.flags &&& I2C_M_TEN = 0)
    (hrd : msg.flags &&& I2C_M_RD ≠ 0) (h0 : msg.len = 0) :
    (∀ (idle rest : List Nat) (t : List Ev), isPoll busy idle = true →
        rt_i2c_handle_msg msg { resp := idle ++ rest, trace := t }
          = Res.ok (0, msg) { resp := rest, trace := t ++ statusReads idle })
      ∧ (∀ h : Hw, ∃ p, (rt_i2c_handle_msg msg h).hw.trace = h.trace ++ statusReads p) := by
  have hmax : ¬ msg.len > MAX_SIZE := by simp [MAX_SIZE, h0]
  constructor
  · intro idle rest t hidle
    have hr := handle_read_ok msg hten hrd (by omega) idle hidle [] (by simp [h0])
      (by simp) rest t
    have hz : msg.len % 64 = 0 := by omega
    simp only [readResp, List.map_nil, List.flatten_nil, List.append_nil, hz,
      ne_eq, not_true_eq_false, if_false, storeAt, readPathSpec] at hr
    exact hr
  · intro h
    obtain ⟨p, hp⟩ := spin_status busy h.resp h.trace
    refine ⟨p, ?_⟩
    unfold rt_i2c_handle_msg
    rw [if_neg (by simp [hten]), if_neg hmax, if_pos hrd]
    simp only [h0, Nat.zero_div, Nat.zero_mod, readBlocks, bind_apply, pure_apply, ne_eq,
      not_true_eq_false, if_false, readBytes, rt_i2c_wait_idle]
    cases hs : spin busy h.resp h.trace with
    | ok a h1 => rw [hs] at hp; simpa [Res.hw] using hp
    | hang h1 => rw [hs] at hp; simpa [Res.hw] using hp

/-- Witness of `handle_msg_read_empty`. -/
theorem handle_msg_read_empty_witness :
    rt_i2c_handle_msg emptyRead { resp := [1, 1, 0] ++ [4, 7], trace := [] }
      = Res.ok (0, emptyRead) { resp := [4, 7], trace := [] ++ statusReads [1, 1, 0] } :=
  (handle_msg_read_empty emptyRead (by decide) (by decide) (by decide)).1 [1, 1, 0] [4, 7] []
    (by decide)

/-! ## The three polls (C15) -/

theorem spin_first (again : Nat → Bool) (pre : List Nat) (v : Nat) (rest : List Nat)
    (t : List Ev) (hpre : ∀ x ∈ pre, again x = true) (hv : again v = false) :
    spin again (pre ++ v :: rest) t
      = Res.ok () { resp := rest, trace := t ++ statusReads (pre ++ [v]) } := by
  induction pre generalizing t with
  | nil => simp [spin, hv, statusReads]
  | cons x xs ih =>
    have hx : again x = true := hpre x (List.mem_cons_self _ _)
    have ih1 := ih (t ++ [Ev.r REG_STATUS_REG x]) (fun y hy => hpre y (List.mem_cons_of_mem _ hy))
    rw [List.cons_append, spin, if_pos hx, ih1]
    simp [statusReads]

theorem spin_none (again : Nat → Bool) (resp : List Nat) (t : List Ev)
    (hall : ∀ x ∈ resp, again x = true) :
    spin again resp t = Res.hang { resp := [], trace := t ++ statusReads resp } := by
  induction resp generalizing t with
  | nil => simp [spin, statusReads]
  | cons x xs ih =>
    have hx : again x = true := hall x (List.mem_cons_self _ _)
    have ih1 := ih (t ++ [Ev.r REG_STATUS_REG x]) (fun y hy => hall y (List.mem_cons_of_mem _ hy))
    rw [spin, if_pos hx, ih1]
    simp [statusReads]

/-- C15: each of the three polls only reads the status register (0x18) and
returns 0 right after the first status value that satisfies its condition:
busy (bit 0) clear for `rt_i2c_wait_idle`, output-buffer-empty (bit 1) set for
`rt_i2c_wait_tx_done`, data-ready (bit 2) set for `rt_i2c_wait_rx_done`. On a
status stream whose first k values `pre` fail the condition and whose next
value `v` satisfies it, the poll makes exactly the k+1 status reads of
`pre ++ [v]`, writes nothing and leaves the later responses unread. While no
value satisfies the condition the poll keeps reading and does not return. Only
the one bit of each value is looked at. -/
theorem wait_first_satisfying (pre : List Nat) (v : Nat) (rest : List Nat) (t : List Ev) :
    ((∀ x ∈ pre, x &&& I2C_BUSY ≠ 0) → v &&& I2C_BUSY = 0 →
        rt_i2c_wait_idle { resp := pre ++ v :: rest, trace := t }
          = Res.ok 0 { resp := rest, trace := t ++ statusReads (pre ++ [v]) })
      ∧ ((∀ x ∈ pre, x &&& I2C_SDOEMPTY = 0) → v &&& I2C_SDOEMPTY ≠ 0 →
        rt_i2c_wait_tx_done { resp := pre ++ v :: rest, trace := t }
          = Res.ok 0 { resp := rest, trace := t ++ statusReads (pre ++ [v]) })
      ∧ ((∀ x ∈ pre, x &&& I2C_DATARDY = 0) → v &&& I2C_DATARDY ≠ 0 →
        rt_i2c_wait_rx_done { resp := pre ++ v :: rest, trace := t }
          = Res.ok 0 { resp := rest, trace := t ++ statusReads (pre ++ [v]) })
      ∧ ((∀ x ∈ pre, x &&& I2C_BUSY ≠ 0) →
        rt_i2c_wait_idle { resp := pre, trace := t }
          = Res.hang { resp := [], trace := t ++ statusReads pre })
      ∧ ((∀ x ∈ pre, x &&& I2C_SDOEMPTY = 0) →
        rt_i2c_wait_tx_done { resp := pre, trace := t }
          = Res.hang { resp := [], trace := t ++ statusReads pre })
      ∧ ((∀ x ∈ pre, x &&& I2C_DATARDY = 0) →
        rt_i2c_wait_rx_done { resp := pre, trace := t }
          = Res.hang { resp := [], trace := t ++ statusReads pre })
      ∧ (statusReads (pre ++ [v])).length = pre.length + 1
      ∧ (∀ e ∈ statusReads (pre ++ [v]), ∃ x, e = Ev.r 0x18 x)
      ∧ (I2C_BUSY = 2 ^ 0 ∧ I2C_SDOEMPTY = 2 ^ 1 ∧ I2C_DATARDY = 2 ^ 2) := by
  refine ⟨?_, ?_, ?_, ?_, ?_, ?_, ?_, ?_, ?_⟩
  · intro hpre hv
    have h1 : ∀ x ∈ pre, busy x = true := fun x hx => by simpa [busy] using hpre x hx
    have h2 : busy v = false := by simp [busy, hv]
    simp only [rt_i2c_wait_idle, spin_first busy pre v rest t h1 h2]
  · intro hpre hv
    have h1 : ∀ x ∈ pre, txPending x = true := fun x hx => by simp [txPending, hpre x hx]
    have h2 : txPending v = false := by simpa [txPending] using hv
    simp only [rt_i2c_wait_tx_done, spin_first txPending pre v rest t h1 h2]
  · intro hpre hv
    have h1 : ∀ x ∈ pre, rxPending x = true := fun x hx => by simp [rxPending, hpre x hx]
    have h2 : rxPending v = false := by simpa [rxPending] using hv
    simp only [rt_i2c_wait_rx_done, spin_first rxPending pre v rest t h1 h2]
  · intro hpre
    have h1 : ∀ x ∈ pre, busy x = true := fun x hx => by simpa [busy] using hpre x hx
    simp only [rt_i2c_wait_idle, spin_none busy pre t h1]
  · intro hpre
    have h1 : ∀ x ∈ pre, txPending x = true := fun x hx => by simp [txPending, hpre x hx]
    simp only [rt_i2c_wait_tx_done, spin_none txPending pre t h1]
  · intro hpre
    have h1 : ∀ x ∈ pre, rxPending x = true := fun x hx => by simp [rxPending, hpre x hx]
    simp only [rt_i2c_wait_rx_done, spin_none rxPending pre t h1]
  · simp [statusReads]
  · intro e he
    simp only [statusReads, List.mem_map] at he
    obtain ⟨x, -, rfl⟩ := he
    exact ⟨x, rfl⟩
  · decide

/-- Witness of `wait_first_satisfying`: the bus-idle poll on the status values
0x19, 0x01, 0x1A (the ACK-error and start-error bits set in the first and the
last) ends at the third read. -/
theorem wait_first_satisfying_witness :
    rt_i2c_wait_idle { resp := [0x19, 0x01] ++ 0x1A :: [5, 6], trace := [] }
      = Res.ok 0 { resp := [5, 6], trace := [] ++ statusReads ([0x19, 0x01] ++ [0x1A]) } :=
  (wait_first_satisfying [0x19, 0x01] 0x1A [5, 6] []).1 (by decide) (by decide)

/-! ## The Write message of length 0 (C16) -/

/-- C16: for a Write message of length 0 without the 10-bit flag, on hardware
whose bus-idle poll terminates, `rt_i2c_handle_msg` makes exactly the bus-idle
poll and then one write of `len - 1` wrapped to 32 bits, 0xFFFFFFFF, to the
byte-count register: nothing is written to the data-out register, no start
command is issued, there is no tx-ready poll, and the call returns 0. -/
theorem handle_msg_write_empty (msg : Msg) (hten : msg.flags &&& I2C_M_TEN = 0)
    (hrd : msg.flags &&& I2C_M_RD = 0) (h0 : msg.len = 0)
    (idle : List Nat) (hidle : isPoll busy idle = true) (rest : List Nat) (t : List Ev) :
    rt_i2c_handle_msg msg { resp := idle ++ rest, trace := t }
      = Res.ok (0, msg)
          { resp := rest, trace := t ++ statusReads idle ++ [Ev.w REG_BYTECNT_REG 0xFFFFFFFF] } := by
  have hw := handle_write_ok msg hten hrd (by omega) idle hidle [] (by simp [h0]) (by simp) rest t
  have hv : u32 ((msg.len : Int) - 1) = 0xFFFFFFFF := by rw [h0]; decide
  simp only [List.flatten_nil, List.append_nil, writeSegs, hv] at hw
  exact hw

/-- Witness of `handle_msg_write_empty`. -/
theorem handle_msg_write_empty_witness :
    rt_i2c_handle_msg emptyWrite { resp := [1, 0] ++ [2, 2], trace := [] }
      = Res.ok (0, emptyWrite)
          { resp := [2, 2],
            trace := [] ++ statusReads [1, 0] ++ [Ev.w REG_BYTECNT_REG 0xFFFFFFFF] } :=
  handle_msg_write_empty emptyWrite (by decide) (by decide) (by decide) [1, 0] (by decide)
    [2, 2] []

/-! ## Start commands and byte counts of accepted messages (C17) -/

theorem budget_of_emits {α : Type} (c x : Nat) (m : HwM α) (hm : Emits noCmd m) :
    Budget c x m := by
  intro h
  obtain ⟨tail, ht, hP⟩ := hm h
  refine ⟨tail, ht, ?_, ?_⟩
  · have : tail.countP (isWriteTo REG_STARTXFR_REG) = 0 :=
      List.countP_eq_zero.2 (fun e he => by simp [(hP e he).1])
    omega
  · intro v hv
    have := (hP _ hv).2
    simp [isWriteTo] at this

theorem budget_bind {α β : Type} (c1 c2 c x : Nat) (hc : c1 + c2 ≤ c) (m : HwM α)
    (f : α → HwM β) (hm : Budget c1 x m) (hf : ∀ a, Budget c2 x (f a)) :
    Budget c x (m >>= f) := by
  intro h
  obtain ⟨t1, ht1, hc1, hv1⟩ := hm h
  rw [bind_apply]
  cases hmh : m h with
  | hang h1 =>
    rw [hmh] at ht1
    exact ⟨t1, ht1, by omega, hv1⟩
  | ok a h1 =>
    rw [hmh] at ht1
    obtain ⟨t2, ht2, hc2, hv2⟩ := hf a h1
    refine ⟨t1 ++ t2, ?_, ?_, ?_⟩
    · simp only [Res.hw] at ht1
      simp only [ht2, ht1, List.append_assoc]
    · rw [List.countP_append]; omega
    · intro v hv
      rcases List.mem_append.1 hv with hv | hv
      · exact hv1 v hv
      · exact hv2 v hv

theorem budget_w32_start (x : Nat) (val : Int) : Budget 1 x (rt_i2c_w32 val REG_STARTXFR_REG) := by
  intro h
  refine ⟨[Ev.w REG_STARTXFR_REG (u32 val)], by simp [w32_apply, Res.hw],
    List.countP_le_length _, ?_⟩
  intro v hv
  simp [REG_BYTECNT_REG, REG_STARTXFR_REG] at hv

theorem budget_w32_bytecnt (val : Int) :
    Budget 0 (u32 val) (rt_i2c_w32 val REG_BYTECNT_REG) := by
  intro h
  refine ⟨[Ev.w REG_BYTECNT_REG (u32 val)], by simp [w32_apply, Res.hw], ?_, ?_⟩
  · simp [List.countP_cons, isWriteTo, REG_BYTECNT_REG, REG_STARTXFR_REG]
  · intro v hv
    simpa using hv

theorem noCmd_read (reg v : Nat) : noCmd (Ev.r reg v) := ⟨rfl, rfl⟩

theorem noCmd_dataout (v : Nat) : noCmd (Ev.w REG_DATAOUT_REG v) := ⟨rfl, rfl⟩

theorem noCmd_readBytes (n pos : Nat) (buf : List Nat) : Emits noCmd (readBytes n pos buf) := by
  induction n generalizing pos buf with
  | zero => exact emits_pure _ _
  | succ n ih =>
    unfold readBytes
    refine emits_bind _ _ _ (emits_wait_rx_done _ (noCmd_read _)) (fun _ => ?_)
    refine emits_bind _ _ _ (emits_r32 _ _ (noCmd_read _)) (fun v => ?_)
    exact ih _ _

theorem noCmd_writeBytes (n i : Nat) (buf : List Nat) (hi : 1 ≤ i) :
    Emits noCmd (writeBytes n i buf) := by
  induction n generalizing i with
  | zero => exact emits_pure _ _
  | succ n ih =>
    have hne : ¬ i = 0 := by omega
    unfold writeBytes
    refine emits_bind _ _ _ (emits_w32 _ _ _ (noCmd_dataout _)) (fun _ => ?_)
    simp only [if_neg hne]
    refine emits_bind _ _ _ (emits_pure _ _) (fun _ => ?_)
    exact emits_bind _ _ _ (emits_wait_tx_done _ (noCmd_read _))
      (fun _ => ih (i + 1) (by omega))

theorem budget_writeBytes (x n : Nat) (buf : List Nat) : Budget 1 x (writeBytes n 0 buf) := by
  cases n with
  | zero => exact budget_of_emits _ _ _ (emits_pure _ _)
  | succ n =>
    unfold writeBytes
    refine budget_bind 0 1 1 x (by decide) _ _
      (budget_of_emits _ _ _ (emits_w32 _ _ _ (noCmd_dataout _))) (fun _ => ?_)
    simp only [if_pos (rfl : (0 : Nat) = 0)]
    refine budget_bind 1 0 1 x (by decide) _ _ (budget_w32_start x _) (fun _ => ?_)
    refine budget_of_emits _ _ _ ?_
    exact emits_bind _ _ _ (emits_wait_tx_done _ (noCmd_read _))
      (fun _ => noCmd_writeBytes n 1 buf (by decide))

theorem budget_handle_msg (msg : Msg) (hten : msg.flags &&& I2C_M_TEN = 0)
    (hlen : msg.len ≤ 63) :
    Budget 1 (u32 ((msg.len : Int) - 1)) (rt_i2c_handle_msg msg) := by
  have hmax : ¬ msg.len > MAX_SIZE := by simp [MAX_SIZE]; omega
  have hnb : msg.len / READ_BLOCK = 0 := by simp [READ_BLOCK]; omega
  have hrem : msg.len % READ_BLOCK = msg.len := by simp [READ_BLOCK]; omega
  unfold rt_i2c_handle_msg
  rw [if_neg (by simp [hten]), if_neg hmax]
  by_cases hrd : msg.flags &&& I2C_M_RD ≠ 0
  · rw [if_pos hrd]
    simp only [hnb, hrem, readBlocks]
    refine budget_bind 0 1 1 _ (by decide) _ _
      (budget_of_emits _ _ _ (emits_pure _ _)) (fun a => ?_)
    refine budget_bind 0 1 1 _ (by decide) _ _
      (budget_of_emits _ _ _ (emits_wait_idle _ (noCmd_read _))) (fun _ => ?_)
    by_cases h0 : msg.len ≠ 0
    · simp only [if_pos h0]
      refine budget_bind 0 1 1 _ (by decide) _ _ (budget_w32_bytecnt _) (fun _ => ?_)
      refine budget_bind 1 0 1 _ (by decide) _ _ (budget_w32_start _ _) (fun _ => ?_)
      refine budget_of_emits _ _ _ ?_
      exact emits_bind _ _ _ (noCmd_readBytes _ _ _) (fun _ => emits_pure _ _)
    · simp only [if_neg h0]
      refine budget_of_emits _ _ _ ?_
      refine emits_bind _ _ _ (emits_pure _ _) (fun _ => ?_)
      exact emits_bind _ _ _ (noCmd_readBytes _ _ _) (fun _ => emits_pure _ _)
  · rw [if_neg hrd]
    refine budget_bind 0 1 1 _ (by decide) _ _
      (budget_of_emits _ _ _ (emits_wait_idle _ (noCmd_read _))) (fun _ => ?_)
    refine budget_bind 0 1 1 _ (by decide) _ _ (budget_w32_bytecnt _) (fun _ => ?_)
    refine budget_bind 1 0 1 _ (by decide) _ _ (budget_writeBytes _ _ _) (fun _ => ?_)
    exact budget_of_emits _ _ _ (emits_pure _ _)

/-- C17: for every message `rt_i2c_handle_msg` accepts (no 10-bit flag, length
<= 63) the number of full blocks `len / 64` is 0 and the remainder `len % 64`
is `len`, so the full-block loop runs zero times and accesses nothing. On any
hardware, returning or not, the accesses of the call hold at most one start
command, every byte-count write has the value `len - 1` (wrapped to 32 bits),
none has the value 63, and for a length >= 1 every byte-count value lies in
0..=62. -/
theorem handle_msg_accepted_single_block (msg : Msg) (h : Hw)
    (hten : msg.flags &&& I2C_M_TEN = 0) (hlen : msg.len ≤ 63) :
    msg.len / READ_BLOCK = 0 ∧ msg.len % READ_BLOCK = msg.len
      ∧ (∀ (pos : Nat) (buf : List Nat) (g : Hw),
          readBlocks (msg.len / READ_BLOCK) pos buf g = Res.ok (pos, buf) g)
      ∧ ∃ tail, (rt_i2c_handle_msg msg h).hw.trace = h.trace ++ tail
          ∧ tail.countP (isWriteTo REG_STARTXFR_REG) ≤ 1
          ∧ (∀ v, Ev.w REG_BYTECNT_REG v ∈ tail → v = u32 ((msg.len : Int) - 1))
          ∧ Ev.w REG_BYTECNT_REG 63 ∉ tail
          ∧ (1 ≤ msg.len → ∀ v, Ev.w REG_BYTECNT_REG v ∈ tail → v ≤ 62) := by
  have hnb : msg.len / READ_BLOCK = 0 := by simp [READ_BLOCK]; omega
  have hrem : msg.len % READ_BLOCK = msg.len := by simp [READ_BLOCK]; omega
  refine ⟨hnb, hrem, ?_, ?_⟩
  · intro pos buf g
    rw [hnb]; rfl
  · obtain ⟨tail, ht, hc, hv⟩ := budget_handle_msg msg hten hlen h
    refine ⟨tail, ht, hc, hv, ?_, ?_⟩
    · intro hmem
      have h63 := hv 63 hmem
      by_cases h0 : msg.len = 0
      · rw [h0] at h63
        revert h63
        decide
      · rw [u32_pred msg.len (by omega) (by omega)] at h63
        omega
    · intro h1 v hmem
      have hval := hv v hmem
      rw [u32_pred msg.len h1 (by omega)] at hval
      omega

/-- Witness of `handle_msg_accepted_single_block`: a 3-byte write on hardware
that stops answering during the second tx-ready poll. -/
theorem handle_msg_accepted_single_block_witness :
    write3.len / READ_BLOCK = 0 ∧ write3.len % READ_BLOCK = write3.len
      ∧ (∀ (pos : Nat) (buf : List Nat) (g : Hw),
          readBlocks (write3.len / READ_BLOCK) pos buf g = Res.ok (pos, buf) g)
      ∧ ∃ tail, (rt_i2c_handle_msg write3 { resp := [0, 2, 0], trace := [] }).hw.trace
            = [] ++ tail
          ∧ tail.countP (isWriteTo REG_STARTXFR_REG) ≤ 1
          ∧ (∀ v, Ev.w REG_BYTECNT_REG v ∈ tail → v = u32 ((write3.len : Int) - 1))
          ∧ Ev.w REG_BYTECNT_REG 63 ∉ tail
          ∧ (1 ≤ write3.len → ∀ v, Ev.w REG_BYTECNT_REG v ∈ tail → v ≤ 62) :=
  handle_msg_accepted_single_block write3 { resp := [0, 2, 0], trace := [] }
    (by decide) (by decide)

/-! ## The result does not depend on what the hardware answers (C18) -/

theorem writes_pure {α : Type} (a : α) : Writes [] (pure a : HwM α) := by
  intro h b g hrun
  rw [pure_apply] at hrun
  injection hrun with _ hg
  exact ⟨[], by simp [hg], rfl⟩

theorem writes_bind {α β : Type} (w1 w2 ws : List Ev) (hws : w1 ++ w2 = ws) (m : HwM α)
    (f : α → HwM β) (hm : Writes w1 m) (hf : ∀ a, Writes w2 (f a)) : Writes ws (m >>= f) := by
  intro h b g hrun
  obtain ⟨a, h1, hm1, hf1⟩ := bind_ok _ _ _ _ _ hrun
  obtain ⟨t1, ht1, hw1⟩ := hm h a h1 hm1
  obtain ⟨t2, ht2, hw2⟩ := hf a h1 b g hf1
  exact ⟨t1 ++ t2, by rw [ht2, ht1, List.append_assoc], by rw [writesOf_append, hw1, hw2, hws]⟩

theorem writes_w32 (val : Int) (reg : Nat) : Writes [Ev.w reg (u32 val)] (rt_i2c_w32 val reg) := by
  intro h a g hrun
  rw [w32_apply] at hrun
  injection hrun with _ hg
  exact ⟨[Ev.w reg (u32 val)], by simp [← hg], rfl⟩

theorem writes_r32 (reg : Nat) : Writes [] (rt_i2c_r32 reg) := by
  intro h a g hrun
  unfold rt_i2c_r32 at hrun
  cases hr : h.resp with
  | nil => rw [hr] at hrun; cases hrun
  | cons v rs =>
    rw [hr] at hrun
    injection hrun with _ hg
    exact ⟨[Ev.r reg v], by simp [← hg], rfl⟩

theorem writes_wait_idle : Writes [] rt_i2c_wait_idle := by
  intro h a g hrun
  obtain ⟨p, hp⟩ := spin_status busy h.resp h.trace
  unfold rt_i2c_wait_idle at hrun
  cases hs : spin busy h.resp h.trace with
  | hang h1 => rw [hs] at hrun; cases hrun
  | ok u h1 =>
    rw [hs] at hrun hp
    injection hrun with _ hg
    exact ⟨statusReads p, by rw [← hg]; exact hp, writesOf_statusReads p⟩

theorem writes_wait_tx_done : Writes [] rt_i2c_wait_tx_done := by
  intro h a g hrun
  obtain ⟨p, hp⟩ := spin_status txPending h.resp h.trace
  unfold rt_i2c_wait_tx_done at hrun
  cases hs : spin txPending h.resp h.trace with
  | hang h1 => rw [hs] at hrun; cases hrun
  | ok u h1 =>
    rw [hs] at hrun hp
    injection hrun with _ hg
    exact ⟨statusReads p, by rw [← hg]; exact hp, writesOf_statusReads p⟩

theorem writes_wait_rx_done : Writes [] rt_i2c_wait_rx_done := by
  intro h a g hrun
  obtain ⟨p, hp⟩ := spin_status rxPending h.resp h.trace
  unfold rt_i2c_wait_rx_done at hrun
  cases hs : spin rxPending h.resp h.trace with
  | hang h1 => rw [hs] at hrun; cases hrun
  | ok u h1 =>
    rw [hs] at hrun hp
    injection hrun with _ hg
    exact ⟨statusReads p, by rw [← hg]; exact hp, writesOf_statusReads p⟩

theorem writes_readBytes (n pos : Nat) (buf : List Nat) : Writes [] (readBytes n pos buf) := by
  induction n generalizing pos buf with
  | zero => exact writes_pure _
  | succ n ih =>
    unfold readBytes
    refine writes_bind [] [] [] rfl _ _ writes_wait_rx_done (fun _ => ?_)
    refine writes_bind [] [] [] rfl _ _ (writes_r32 _) (fun v => ?_)
    exact ih _ _

theorem writes_writeBytes (n i : Nat) (buf : List Nat) :
    Writes (writeWrites n i buf) (writeBytes n i buf) := by
  induction n generalizing i with
  | zero => exact writes_pure _
  | succ n ih =>
    unfold writeBytes writeWrites
    by_cases hi : i = 0
    · simp only [if_pos hi]
      refine writes_bind [_] _ _ rfl _ _ (writes_w32 _ _) (fun _ => ?_)
      refine writes_bind [_] _ _ rfl _ _ (writes_w32 _ _) (fun _ => ?_)
      exact writes_bind [] _ _ rfl _ _ writes_wait_tx_done (fun _ => ih _)
    · simp only [if_neg hi]
      refine writes_bind [_] _ _ rfl _ _ (writes_w32 _ _) (fun _ => ?_)
      refine writes_bind [] _ _ rfl _ _ (writes_pure _) (fun _ => ?_)
      exact writes_bind [] _ _ rfl _ _ writes_wait_tx_done (fun _ => ih _)

theorem writes_handle_msg (msg : Msg) : Writes (expectedWrites msg) (rt_i2c_handle_msg msg) := by
  unfold rt_i2c_handle_msg expectedWrites
  by_cases hten : msg.flags &&& I2C_M_TEN ≠ 0
  · simp only [if_pos hten]; exact writes_pure _
  simp only [if_neg hten]
  by_cases hmax : msg.len > MAX_SIZE
  · simp only [if_pos hmax]; exact writes_pure _
  simp only [if_neg hmax]
  have hnb : msg.len / READ_BLOCK = 0 := by
    simp only [MAX_SIZE, READ_BLOCK] at hmax ⊢; omega
  by_cases hrd : msg.flags &&& I2C_M_RD ≠ 0
  · simp only [if_pos hrd, hnb, readBlocks]
    by_cases hrem : msg.len % READ_BLOCK ≠ 0
    · simp only [if_pos hrem]
      refine writes_bind [] _ _ rfl _ _ (writes_pure _) (fun a => ?_)
      refine writes_bind [] _ _ rfl _ _ writes_wait_idle (fun _ => ?_)
      refine writes_bind [_] [_] _ rfl _ _ (writes_w32 _ _) (fun _ => ?_)
      refine writes_bind [_] [] _ rfl _ _ (writes_w32 _ _) (fun _ => ?_)
      exact writes_bind [] [] _ rfl _ _ (writes_readBytes _ _ _) (fun _ => writes_pure _)
    · simp only [if_neg hrem]
      refine writes_bind [] _ _ rfl _ _ (writes_pure _) (fun a => ?_)
      refine writes_bind [] _ _ rfl _ _ writes_wait_idle (fun _ => ?_)
      refine writes_bind [] [] _ rfl _ _ (writes_pure _) (fun _ => ?_)
      exact writes_bind [] [] _ rfl _ _ (writes_readBytes _ _ _) (fun _ => writes_pure _)
  · simp only [if_neg hrd]
    refine writes_bind [] _ _ rfl _ _ writes_wait_idle (fun _ => ?_)
    refine writes_bind [_] _ _ rfl _ _ (writes_w32 _ _) (fun _ => ?_)
    exact writes_bind _ [] _ (List.append_nil _) _ _ (writes_writeBytes _ _ _)
      (fun _ => writes_pure _)

/-- C18: the result of `rt_i2c_handle_msg` depends only on the flags and the
length of the message, never on what the hardware answers: for any two runs on
the same message that return (whatever the status and data-in values were,
error bits included), the return values are equal, the value is `-EINVAL`
exactly when the 10-bit flag is set or the length exceeds 63 and 0 otherwise,
and both runs made the same register writes, registers and values, namely
those the message alone calls for. On hardware whose polls terminate a valid
message does return 0. -/
theorem handle_msg_result_independent (msg : Msg) (h1 h2 g1 g2 : Hw) (r1 r2 : Int)
    (m1 m2 : Msg) (hrun1 : rt_i2c_handle_msg msg h1 = Res.ok (r1, m1) g1)
    (hrun2 : rt_i2c_handle_msg msg h2 = Res.ok (r2, m2) g2) :
    r1 = r2
      ∧ (r1 = -EINVAL ↔ (msg.flags &&& I2C_M_TEN ≠ 0 ∨ 63 < msg.len))
      ∧ (r1 = 0 ↔ (msg.flags &&& I2C_M_TEN = 0 ∧ msg.len ≤ 63))
      ∧ (∃ tail1 tail2, g1.trace = h1.trace ++ tail1 ∧ g2.trace = h2.trace ++ tail2
          ∧ writesOf tail1 = expectedWrites msg ∧ writesOf tail2 = expectedWrites msg)
      ∧ (msg.valid = true → ∀ (s rest : List Nat) (t : List Ev), Serves msg s →
          (rt_i2c_handle_msg msg { resp := s ++ rest, trace := t }).ret? = some 0) := by
  obtain ⟨tail1, ht1, hw1⟩ := writes_handle_msg msg h1 _ g1 hrun1
  obtain ⟨tail2, ht2, hw2⟩ := writes_handle_msg msg h2 _ g2 hrun2
  have hserved : msg.valid = true → ∀ (s rest : List Nat) (t : List Ev), Serves msg s →
      (rt_i2c_handle_msg msg { resp := s ++ rest, trace := t }).ret? = some 0 := by
    intro hv s rest t hs
    rw [handle_served msg hv s hs rest t]; rfl
  by_cases hbad : msg.flags &&& I2C_M_TEN ≠ 0 ∨ 63 < msg.len
  · have hrej : ∀ h : Hw, rt_i2c_handle_msg msg h = Res.ok (-EINVAL, msg) h := by
      intro h
      rcases hbad with ht | hl
      · exact handle_reject_ten msg ht h
      · exact handle_reject_len msg hl h
    have e1 : r1 = -EINVAL := by
      rw [hrej h1] at hrun1
      injection hrun1 with hp _
      exact (congrArg Prod.fst hp).symm
    have e2 : r2 = -EINVAL := by
      rw [hrej h2] at hrun2
      injection hrun2 with hp _
      exact (congrArg Prod.fst hp).symm
    refine ⟨by rw [e1, e2], ⟨fun _ => hbad, fun _ => e1⟩, ⟨?_, ?_⟩,
      ⟨tail1, tail2, ht1, ht2, hw1, hw2⟩, hserved⟩
    · intro h0
      rw [e1] at h0
      exact absurd h0 (by decide)
    · intro hgood
      rcases hbad with ht | hl
      · exact absurd hgood.1 ht
      · omega
  · have hten : msg.flags &&& I2C_M_TEN = 0 := by
      by_contra hne
      exact hbad (Or.inl hne)
    have hlen : msg.len ≤ 63 := by
      by_contra hgt
      exact hbad (Or.inr (by omega))
    have e1 : r1 = 0 := handle_valid_ret msg hten hlen h1 g1 r1 m1 hrun1
    have e2 : r2 = 0 := handle_valid_ret msg hten hlen h2 g2 r2 m2 hrun2
    refine ⟨by rw [e1, e2], ⟨?_, fun hb => absurd hb hbad⟩, ⟨fun _ => ⟨hten, hlen⟩, fun _ => e1⟩,
      ⟨tail1, tail2, ht1, ht2, hw1, hw2⟩, hserved⟩
    intro h0
    rw [e1] at h0
    exact absurd h0 (by decide)

/-- Witness of `handle_msg_result_independent`: the 3-byte write on quiet
hardware and on hardware that reports ACK and start errors and makes polls
wait: both runs return 0 and make the same register writes. -/
theorem handle_msg_result_independent_witness :
    (0 : Int) = 0
      ∧ ((0 : Int) = -EINVAL ↔ (write3.flags &&& I2C_M_TEN ≠ 0 ∨ 63 < write3.len))
      ∧ ((0 : Int) = 0 ↔ (write3.flags &&& I2C_M_TEN = 0 ∧ write3.len ≤ 63))
      ∧ (∃ tail1 tail2, quietDone.trace = quietHw.trace ++ tail1
          ∧ noisyDone.trace = noisyHw.trace ++ tail2
          ∧ writesOf tail1 = expectedWrites write3 ∧ writesOf tail2 = expectedWrites write3)
      ∧ (write3.valid = true → ∀ (s rest : List Nat) (t : List Ev), Serves write3 s →
          (rt_i2c_handle_msg write3 { resp := s ++ rest, trace := t }).ret? = some 0) :=
  handle_msg_result_independent write3 quietHw noisyHw quietDone noisyDone 0 0 write3 write3
    (by decide) (by decide)

end I2cRalink
